import Mathlib

/-!
# Tubely upload handlers: aspect-ratio classification, object keys and stored references

A shallow embedding of `handler_upload_video.go` and `handler_upload_thumbnail.go`.

* Go strings are lists of characters; the separators that matter (`","`, `"/"`) are single
  ASCII bytes, so splitting on the character is splitting on the byte.
* `float64` values are modelled by their exact rational value, with round-to-nearest-even
  to a 53-bit significand, plus the two infinities and NaN.
* Collaborators outside the two source files (UUID parsing, JWT, database, multipart form,
  `mime`, `crypto/rand`, the file system, `ffprobe`, `ffmpeg`, S3) are answers supplied by a
  `World`; every effect the handlers have on them is recorded as an `Event`.
-/

namespace Tubely

/-! ## Strings -/

/-- A Go `string`. -/
abbrev GoString := List Char

/-- The Go call `strings.Split(s, sep)` for a one-byte separator: cut at every occurrence. -/
def stringsSplit : GoString → Char → List GoString
  | [], _ => [[]]
  | c :: cs, sep =>
    if c = sep then [] :: stringsSplit cs sep
    else match stringsSplit cs sep with
      | [] => [[c]]
      | p :: ps => (c :: p) :: ps

/-- The Go call `strings.Join(elems, sep)`. -/
def stringsJoin (elems : List GoString) (sep : GoString) : GoString :=
  sep.intercalate elems

/-- The Go call `strings.Contains(s, substr)`. -/
def stringsContains (s substr : GoString) : Bool :=
  decide (substr <:+: s)

/-! ## IEEE-754 binary64 -/

/-- Nearest integer, ties to the even one. -/
def roundHalfEven (m : ℚ) : ℤ :=
  let f := ⌊m⌋
  let r := m - f
  if r < 1 / 2 then f
  else if 1 / 2 < r then f + 1
  else if f % 2 = 0 then f else f + 1

/-- Round a rational to the binary64 grid (53-bit significand, gradual underflow below
`2^-1022`), with no upper limit on the exponent; overflow is decided by `F64.ofRat`. -/
def roundQ (x : ℚ) : ℚ :=
  if x = 0 then 0
  else
    let e := max (Int.log 2 |x|) (-1022)
    let u : ℚ := (2 : ℚ) ^ (e - 52)
    (roundHalfEven (x / u) : ℚ) * u

/-- A `float64`: a finite value (the sign of zero is not tracked, it never influences a
comparison), an infinity, or NaN. -/
inductive F64 where
  | fin (q : ℚ)
  | posInf
  | negInf
  | nan
  deriving DecidableEq

namespace F64

/-- Correctly rounded binary64 value of an exact rational result. -/
def ofRat (x : ℚ) : F64 :=
  let r := roundQ x
  if (2 : ℚ) ^ 1024 ≤ |r| then (if 0 < r then posInf else negInf) else fin r

/-- The conversion `float64(n)` of a Go `int`. -/
def ofInt (n : ℤ) : F64 := ofRat n

/-- The `float64` division `a / b`; dividing by zero does not trap, it yields an infinity
or NaN. -/
def div : F64 → F64 → F64
  | nan, _ => nan
  | _, nan => nan
  | fin a, fin b =>
    if b = 0 then (if a = 0 then nan else if 0 < a then posInf else negInf)
    else ofRat (a / b)
  | fin _, posInf => fin 0
  | fin _, negInf => fin 0
  | posInf, fin b => if 0 ≤ b then posInf else negInf
  | negInf, fin b => if 0 ≤ b then negInf else posInf
  | posInf, posInf => nan
  | posInf, negInf => nan
  | negInf, posInf => nan
  | negInf, negInf => nan

/-- The `float64` comparison `a <= b` (false whenever NaN is involved). -/
def le : F64 → F64 → Bool
  | nan, _ => false
  | _, nan => false
  | negInf, _ => true
  | _, posInf => true
  | posInf, _ => false
  | _, negInf => false
  | fin a, fin b => decide (a ≤ b)

/-- The `float64` comparison `a >= b`. -/
def ge (a b : F64) : Bool := le b a

end F64

/-! ## Results -/

/-- A Go `error` value, identified by its message. -/
structure GoError where
  msg : String
  deriving DecidableEq, Repr

/-- Outcome of a Go call that returns `(value, error)`, or that panics at run time. -/
inductive Result (α : Type) where
  | ok (a : α)
  | error (e : GoError)
  | panic
  deriving DecidableEq

/-! ## `getVideoAspectRatio` -/

/-- The local type `videoSizes` of `getVideoAspectRatio`. -/
structure videoSizes where
  Width : ℤ
  Height : ℤ
  deriving DecidableEq

/-- The local type `fFProbeStreams` of `getVideoAspectRatio`. -/
structure fFProbeStreams where
  Streams : List videoSizes
  deriving DecidableEq

/-- What running `ffprobe` and decoding its output gives: `cmd.Output()` fails,
`json.Unmarshal` fails, or the decoded value. -/
inductive ProbeOutput where
  | cmdError (e : GoError)
  | unmarshalError
  | data (d : fFProbeStreams)
  deriving DecidableEq

/-- The function `getVideoAspectRatio`, on the answer of the probe for the file.
`data.Streams[0]` is an unchecked index (a run-time panic on an empty slice). -/
def getVideoAspectRatio (probe : ProbeOutput) : Result GoString :=
  match probe with
  | .cmdError e => .error e
  | .unmarshalError => .error ⟨"Could not unmarshal ffprobe response"⟩
  | .data d =>
    match d.Streams with
    | [] => .panic
    | s0 :: _ =>
      let width := F64.ofInt s0.Width
      let height := F64.ofInt s0.Height
      let aspectRatio := F64.div width height
      if F64.ge aspectRatio (F64.ofRat (17 / 10)) && F64.le aspectRatio (F64.ofRat (89 / 50)) then
        .ok "portrait".toList
      else if F64.ge aspectRatio (F64.ofRat (1 / 2)) && F64.le aspectRatio (F64.ofRat (29 / 50)) then
        .ok "landscape".toList
      else
        .ok "other".toList

/-- The classification rule in the words of the specification, on the exact ratio
`r = w / h`: first match wins. -/
def specClassify (r : ℚ) : GoString :=
  if 17 / 10 ≤ r ∧ r ≤ 89 / 50 then "portrait".toList
  else if 1 / 2 ≤ r ∧ r ≤ 29 / 50 then "landscape".toList
  else "other".toList

/-! ## `base64.RawURLEncoding` -/

/-- The URL-safe alphabet `encodeURL` of `encoding/base64`. -/
def encodeURL : List Char :=
  "ABCDEFGHIJKLMNOPQRSTUVWXYZabcdefghijklmnopqrstuvwxyz0123456789-_".toList

/-- The table lookup `enc.encode[v&0x3F]`. -/
def encodeChar (v : ℕ) : Char := encodeURL.getD (v &&& 0x3F) 'A'

/-- The call `base64.RawURLEncoding.EncodeToString(src)`: three bytes give four characters,
a remainder of one or two bytes gives two or three characters, and no padding is added. -/
def encodeToString : List ℕ → GoString
  | a :: b :: c :: rest =>
    let val := a <<< 16 ||| b <<< 8 ||| c
    encodeChar (val >>> 18) :: encodeChar (val >>> 12) :: encodeChar (val >>> 6)
      :: encodeChar val :: encodeToString rest
  | [a, b] =>
    let val := a <<< 16 ||| b <<< 8
    [encodeChar (val >>> 18), encodeChar (val >>> 12), encodeChar (val >>> 6)]
  | [a] =>
    let val := a <<< 16
    [encodeChar (val >>> 18), encodeChar (val >>> 12)]
  | [] => []

/-- The characters `A-Z a-z 0-9 - _`. -/
def isURLSafeChar (c : Char) : Bool :=
  ('A' ≤ c && c ≤ 'Z') || ('a' ≤ c && c ≤ 'z') || ('0' ≤ c && c ≤ '9') || c == '-' || c == '_'

/-! ## Records, configuration and collaborators -/

/-- A `uuid.UUID`, as the number its 16 bytes spell. -/
abbrev UUID := ℕ

/-- Modelled from the spec: the record type `database.Video`, declared outside the two
source files. It holds an identifier, an owner identifier, the optional thumbnail URL and
the optional stored media reference; `Other` stands for the columns the handlers never
touch. -/
structure Video where
  ID : UUID
  UserID : UUID
  ThumbnailURL : Option GoString
  VideoURL : Option GoString
  Other : GoString
  deriving DecidableEq

/-- The zero value `database.Video{}`. -/
def Video.zero : Video := ⟨0, 0, none, none, []⟩

/-- Modelled from the spec: the fields of `apiConfig` (declared outside the two source
files) that the handlers read. -/
structure apiConfig where
  jwtSecret : GoString
  s3Bucket : GoString
  assetsRoot : GoString
  port : GoString
  deriving DecidableEq

/-- How a run of `ffmpeg` ends: exit status zero with the output file written, or a failure
that may have left an unfinished output file behind. -/
inductive FfmpegOutcome where
  | done
  | failed (e : GoError) (wroteOutput : Bool)
  deriving DecidableEq

/-- The answers of everything outside the two source files during one request. -/
structure World where
  /-- The call `uuid.Parse`. -/
  uuidParse : GoString → Option UUID
  /-- The call `auth.GetBearerToken(r.Header)`. -/
  getBearerToken : Option GoString
  /-- The call `auth.ValidateJWT(token, secret)`. -/
  validateJWT : GoString → GoString → Option UUID
  /-- The call `cfg.db.GetVideo`. -/
  getVideo : UUID → Option Video
  /-- The call `r.FormFile`: the `Content-Type` header of the uploaded part. -/
  formFile : Option GoString
  /-- The call `mime.ParseMediaType`: the media type, lower-cased, without parameters. -/
  parseMediaType : GoString → Option GoString
  /-- Whether `rand.Read` succeeds. -/
  randOk : Bool
  /-- The bytes `rand.Read` produces, by position. -/
  randByte : ℕ → ℕ
  /-- The call `os.CreateTemp`: the name of the new file. -/
  createTemp : Option GoString
  /-- The call `filepath.Join`. -/
  filepathJoin : GoString → GoString → GoString
  /-- Whether `os.Create` succeeds on a path. -/
  osCreate : GoString → Bool
  /-- Whether `io.Copy` succeeds. -/
  copyOk : Bool
  /-- Whether `tempFile.Seek` succeeds. -/
  seekOk : Bool
  /-- Running `ffprobe` on a path and decoding its output. -/
  ffprobe : GoString → ProbeOutput
  /-- Running `ffmpeg` from an input path to an output path. -/
  ffmpeg : GoString → GoString → FfmpegOutcome
  /-- Whether `os.Open` succeeds on a path. -/
  osOpen : GoString → Bool
  /-- Whether `PutObject` succeeds for a bucket, key and content type. -/
  putObject : GoString → GoString → GoString → Bool
  /-- Whether `cfg.db.UpdateVideo` succeeds. -/
  updateVideo : Video → Bool
  /-- The call `PresignGetObject` for a bucket and key: the URL or an error. -/
  presignGetObject : GoString → GoString → Except GoError GoString

/-- An effect of a handler on a collaborator, in the order the calls are made. -/
inductive Event where
  /-- A local file came into existence at the path. -/
  | createFile (path : GoString)
  /-- The call `os.Remove(path)`. -/
  | removeFile (path : GoString)
  /-- The call `PutObject` with bucket, key and content type. -/
  | putObject (bucket key contentType : GoString)
  /-- The call `cfg.db.UpdateVideo`. -/
  | updateVideo (v : Video)
  /-- The call `PresignGetObject` with bucket and key. -/
  | presign (bucket key : GoString)
  deriving DecidableEq

/-- What the client gets: `respondWithError` with a status code, `respondWithJSON` with a
status code and a record, or nothing because the handler panicked. -/
inductive Response where
  | error (code : ℕ)
  | json (code : ℕ) (v : Video)
  | panic
  deriving DecidableEq

/-- One run of a handler: the response and the effects. -/
structure Run where
  response : Response
  events : List Event
  deriving DecidableEq

/-- The local files that exist after a sequence of effects, starting from `files`. -/
def filesAfter : List Event → List GoString → List GoString
  | [], files => files
  | .createFile p :: evs, files => filesAfter evs (p :: files)
  | .removeFile p :: evs, files => filesAfter evs (files.filter (· ≠ p))
  | _ :: evs, files => filesAfter evs files

/-- The random buffer: `[]byte(videoIDString)` overwritten in full by `rand.Read`. -/
def randomBytes (w : World) (n : ℕ) : List ℕ :=
  (List.range n).map (fun i => w.randByte i % 256)

/-! ## The functions of `handler_upload_video.go` -/

/-- The function `processVideoForFastStart`: the output path is the input path followed by
`.processing`; the result is that path, or the error of `ffmpeg`. -/
def processVideoForFastStart (w : World) (filePath : GoString) :
    Except GoError GoString × List Event :=
  let newProcessingFilepath := filePath ++ ".processing".toList
  match w.ffmpeg filePath newProcessingFilepath with
  | .done => (.ok newProcessingFilepath, [.createFile newProcessingFilepath])
  | .failed e wroteOutput =>
    (.error e, if wroteOutput then [.createFile newProcessingFilepath] else [])

/-- The function `generatePresignedURL`. -/
def generatePresignedURL (w : World) (bucket key : GoString) :
    Except GoError GoString × List Event :=
  match w.presignGetObject bucket key with
  | .error e => (.error e, [.presign bucket key])
  | .ok url => (.ok url, [.presign bucket key])

/-- The method `dbVideoToSignedVideo`: the returned pair `(database.Video, error)` and the
calls made. -/
def dbVideoToSignedVideo (w : World) (video : Video) : (Video × Option GoError) × List Event :=
  match video.VideoURL with
  | none => ((video, none), [])
  | some videoURL =>
    let splittedURL := stringsSplit videoURL ','
    if splittedURL.length ≠ 2 then
      ((Video.zero, some ⟨"Could not get bucket and Key from video URL"⟩), [])
    else
      match generatePresignedURL w (splittedURL.getD 0 []) (splittedURL.getD 1 []) with
      | (.ok presignedURL, evs) => (({ video with VideoURL := some presignedURL }, none), evs)
      | (.error e, evs) => ((Video.zero, some e), evs)

/-- The last part of `handlerUploadVideo`: from the call of `PutObject` to the response. -/
def handlerUploadVideo.publish (cfg : apiConfig) (w : World) (video : Video)
    (mimeType s3VideoKey : GoString) : Run :=
  let evs := [Event.putObject cfg.s3Bucket s3VideoKey mimeType]
  if ¬ w.putObject cfg.s3Bucket s3VideoKey mimeType then ⟨.error 500, evs⟩
  else
    let mediaURL := stringsJoin [cfg.s3Bucket, s3VideoKey] ",".toList
    let video := { video with VideoURL := some mediaURL }
    let evs := evs ++ [.updateVideo video]
    if ¬ w.updateVideo video then ⟨.error 500, evs⟩
    else
      match dbVideoToSignedVideo w video with
      | ((_, some _), evs2) => ⟨.error 500, evs ++ evs2⟩
      | ((videoDTO, none), evs2) => ⟨.json 200 videoDTO, evs ++ evs2⟩

/-- The part of `handlerUploadVideo` that runs between `defer os.Remove(tempFile.Name())`
and the return of the handler. -/
def handlerUploadVideo.deferred (cfg : apiConfig) (w : World) (video : Video)
    (mimeType mediaType encodedVideoID tempName : GoString) : Run :=
  if ¬ w.copyOk then ⟨.error 500, []⟩
  else if ¬ w.seekOk then ⟨.error 500, []⟩
  else
    match getVideoAspectRatio (w.ffprobe tempName) with
    | .panic => ⟨.panic, []⟩
    | .error _ => ⟨.error 500, []⟩
    | .ok aspectRatio =>
      match processVideoForFastStart w tempName with
      | (.error _, evs) => ⟨.error 500, evs⟩
      | (.ok fastStartFilePath, evs) =>
        if ¬ w.osOpen fastStartFilePath then ⟨.error 500, evs⟩
        else
          let s3VideoKey := aspectRatio ++ "/".toList ++ encodedVideoID ++ ".".toList ++ mediaType
          let run := handlerUploadVideo.publish cfg w video mimeType s3VideoKey
          ⟨run.response, evs ++ run.events⟩

/-- The method `handlerUploadVideo`, for the path value `videoID` of the request. -/
def handlerUploadVideo (cfg : apiConfig) (w : World) (videoIDString : GoString) : Run :=
  match w.uuidParse videoIDString with
  | none => ⟨.error 400, []⟩
  | some videoID =>
  match w.getBearerToken with
  | none => ⟨.error 401, []⟩
  | some token =>
  match w.validateJWT token cfg.jwtSecret with
  | none => ⟨.error 401, []⟩
  | some userID =>
  match w.getVideo videoID with
  | none => ⟨.error 500, []⟩
  | some video =>
  if video.UserID ≠ userID then ⟨.error 401, []⟩
  else
  match w.formFile with
  | none => ⟨.error 400, []⟩
  | some mimeTypeRaw =>
  match w.parseMediaType mimeTypeRaw with
  | none => ⟨.error 500, []⟩
  | some mimeType =>
  if ¬ stringsContains mimeType "video".toList then ⟨.error 415, []⟩
  else
  let fileType := stringsSplit mimeType '/'
  if fileType.length > 2 then ⟨.error 500, []⟩
  else
  match fileType.get? 1 with
  | none => ⟨.panic, []⟩
  | some mediaType =>
  if ¬ w.randOk then ⟨.error 500, []⟩
  else
  let randomVideoID := randomBytes w videoIDString.length
  let encodedVideoID := encodeToString randomVideoID
  match w.createTemp with
  | none => ⟨.error 500, []⟩
  | some tempName =>
  let run := handlerUploadVideo.deferred cfg w video mimeType mediaType encodedVideoID tempName
  ⟨run.response, [.createFile tempName] ++ run.events ++ [.removeFile tempName]⟩

/-! ## The function of `handler_upload_thumbnail.go` -/

/-- The method `handlerUploadThumbnail`, for the path value `videoID` of the request. -/
def handlerUploadThumbnail (cfg : apiConfig) (w : World) (videoIDString : GoString) : Run :=
  match w.uuidParse videoIDString with
  | none => ⟨.error 400, []⟩
  | some videoID =>
  match w.getBearerToken with
  | none => ⟨.error 401, []⟩
  | some token =>
  match w.validateJWT token cfg.jwtSecret with
  | none => ⟨.error 401, []⟩
  | some userID =>
  match w.getVideo videoID with
  | none => ⟨.error 500, []⟩
  | some video =>
  if video.UserID ≠ userID then ⟨.error 401, []⟩
  else
  match w.formFile with
  | none => ⟨.error 400, []⟩
  | some mimeTypeRaw =>
  match w.parseMediaType mimeTypeRaw with
  | none => ⟨.error 500, []⟩
  | some mimeType =>
  if ¬ stringsContains mimeType "image".toList then ⟨.error 415, []⟩
  else
  let fileType := stringsSplit mimeType '/'
  if fileType.length > 2 then ⟨.error 500, []⟩
  else
  match fileType.get? 1 with
  | none => ⟨.panic, []⟩
  | some thumbnailType =>
  if ¬ w.randOk then ⟨.error 500, []⟩
  else
  let randomVideoID := randomBytes w videoIDString.length
  let encodedVideoID := encodeToString randomVideoID
  let filePathUrl := "/".toList ++ encodedVideoID ++ ".".toList ++ thumbnailType
  let filePath := w.filepathJoin cfg.assetsRoot filePathUrl
  if ¬ w.osCreate filePath then ⟨.error 500, []⟩
  else
  if ¬ w.copyOk then ⟨.error 500, [.createFile filePath]⟩
  else
  let thumbnailURL := "http://localhost:".toList ++ cfg.port ++ "/assets/".toList
    ++ encodedVideoID ++ ".".toList ++ thumbnailType
  let video := { video with ThumbnailURL := some thumbnailURL }
  if ¬ w.updateVideo video then ⟨.error 500, [.createFile filePath, .updateVideo video]⟩
  else ⟨.json 200 video, [.createFile filePath, .updateVideo video]⟩

/-! ## A sample request -/

/-- A configuration with bucket `videos`. -/
def sampleConfig : apiConfig :=
  ⟨"secret".toList, "videos".toList, "/assets".toList, "8091".toList⟩

/-- A request identifier in the canonical 36-character form. -/
def sampleID : GoString := "123e4567-e89b-12d3-a456-426614174000".toList

/-- A world in which every collaborator succeeds on a `1920x1080` upload declared as
`video/mp4`. -/
def sampleWorld : World where
  uuidParse := fun s => if s.length = 36 then some 7 else none
  getBearerToken := some "token".toList
  validateJWT := fun _ _ => some 1
  getVideo := fun id => some ⟨id, 1, none, none, "title".toList⟩
  formFile := some "video/mp4".toList
  parseMediaType := fun s => some s
  randOk := true
  randByte := fun i => 37 * i + 11
  createTemp := some "/tmp/tubely-upload.mp4123".toList
  filepathJoin := fun a b => a ++ b
  osCreate := fun _ => true
  copyOk := true
  seekOk := true
  ffprobe := fun _ => .data ⟨[⟨1920, 1080⟩]⟩
  ffmpeg := fun _ _ => .done
  osOpen := fun _ => true
  putObject := fun _ _ _ => true
  updateVideo := fun _ => true
  presignGetObject := fun b k => .ok ("https://".toList ++ b ++ "/".toList ++ k)

/-- The top-level type of a media type: what stands before the first `/`. -/
def topLevelType (mimeType : GoString) : GoString :=
  (stringsSplit mimeType '/').headD []

/-! ## Stages of a video upload -/

/-- A handler has reached its media category check: identifier, authentication, record
fetch, ownership, form and media type parsing have succeeded, for the fetched record
`video` and the parsed media type `mimeType`. -/
structure Parsed (cfg : apiConfig) (w : World) (videoIDString : GoString) (video : Video)
    (mimeType : GoString) : Prop where
  fetched : ∃ videoID token, w.uuidParse videoIDString = some videoID
    ∧ w.getBearerToken = some token
    ∧ w.validateJWT token cfg.jwtSecret = some video.UserID
    ∧ w.getVideo videoID = some video
  form : ∃ mimeTypeRaw, w.formFile = some mimeTypeRaw
    ∧ w.parseMediaType mimeTypeRaw = some mimeType

/-- Every stage of `handlerUploadVideo` before the deferred clean-up is registered has
succeeded: those of `Parsed`, the media type checks, the random name and the temp file. -/
structure Accepted (cfg : apiConfig) (w : World) (videoIDString : GoString) (video : Video)
    (mimeType mediaType tempName : GoString)
    extends Parsed cfg w videoIDString video mimeType : Prop where
  category : stringsContains mimeType "video".toList = true
  parts : (stringsSplit mimeType '/').length ≤ 2
    ∧ (stringsSplit mimeType '/').get? 1 = some mediaType
  random : w.randOk = true
  temp : w.createTemp = some tempName

/-- Every stage between the temp file and the upload has succeeded: copy, seek,
classification with label `c`, remux and reopening of the remuxed file. -/
structure Remuxed (w : World) (tempName c : GoString) : Prop where
  copied : w.copyOk = true
  sought : w.seekOk = true
  classified : getVideoAspectRatio (w.ffprobe tempName) = .ok c
  remuxed : w.ffmpeg tempName (tempName ++ ".processing".toList) = .done
  opened : w.osOpen (tempName ++ ".processing".toList) = true

/-- The events of `handlerUploadVideo` around those of its deferred part. -/
def wrapTemp (tempName : GoString) (run : Run) : Run :=
  ⟨run.response, [.createFile tempName] ++ run.events ++ [.removeFile tempName]⟩

/-- The sample world with the upload declared as `application/x-video`. -/
def sampleWorldXVideo : World := { sampleWorld with formFile := some "application/x-video".toList }

/-- The sample world with the upload declared as the bare type `video`. -/
def sampleWorldBareVideo : World := { sampleWorld with formFile := some "video".toList }

/-- The sample world with the upload declared as the bare type `image`. -/
def sampleWorldBareImage : World := { sampleWorld with formFile := some "image".toList }

/-- A record whose stored reference is `videos,other/ab12CD.mp4`. -/
def sampleStored : Video :=
  ⟨7, 1, none, some "videos,other/ab12CD.mp4".toList, "title".toList⟩

/-! ## Unpadded URL-safe base64, as a specification -/

theorem roundHalfEven_cases (m : ℚ) : roundHalfEven m = ⌊m⌋ ∨ (roundHalfEven m = ⌊m⌋ + 1 ∧ 1 / 2 ≤ m - ⌊m⌋) := by
  unfold roundHalfEven
  simp only
  split_ifs with h1 h2 h3
  · exact Or.inl rfl
  · exact Or.inr ⟨rfl, le_of_lt h2⟩
  · exact Or.inl rfl
  · exact Or.inr ⟨rfl, not_lt.mp h1⟩

theorem roundHalfEven_ge {m : ℚ} {M : ℤ} (h : (M : ℚ) ≤ m) : M ≤ roundHalfEven m := by
  have hf : M ≤ ⌊m⌋ := Int.le_floor.mpr h
  rcases roundHalfEven_cases m with h1 | ⟨h1, _⟩ <;> omega

theorem roundHalfEven_le {m : ℚ} {M : ℤ} (h : m ≤ (M : ℚ)) : roundHalfEven m ≤ M := by
  have hf : ⌊m⌋ ≤ M := Int.floor_le_iff.mpr (by linarith)
  rcases roundHalfEven_cases m with h1 | ⟨h1, h2⟩
  · omega
  · have : (⌊m⌋ : ℚ) < M := by linarith
    have : ⌊m⌋ < M := by exact_mod_cast this
    omega

theorem roundHalfEven_near {m : ℚ} {M : ℤ} (h : |m - M| < 1 / 2) : roundHalfEven m = M := by
  rw [abs_lt] at h
  obtain ⟨h1, h2⟩ := h
  unfold roundHalfEven
  simp only
  rcases le_or_lt (M : ℚ) m with hm | hm
  · have hf : ⌊m⌋ = M := Int.floor_eq_iff.mpr ⟨hm, by linarith⟩
    rw [hf, if_pos (by linarith)]
  · have hf : ⌊m⌋ = M - 1 := Int.floor_eq_iff.mpr ⟨by push_cast; linarith, by push_cast; linarith⟩
    rw [hf]
    have h3 : ¬ (m - ((M - 1 : ℤ) : ℚ) < 1 / 2) := by push_cast; linarith
    have h4 : 1 / 2 < m - ((M - 1 : ℤ) : ℚ) := by push_cast; linarith
    rw [if_neg h3, if_pos h4]
    ring

theorem roundHalfEven_intCast (M : ℤ) : roundHalfEven (M : ℚ) = M :=
  roundHalfEven_near (by simp)

theorem two_zpow_pos (e : ℤ) : (0 : ℚ) < (2 : ℚ) ^ e := zpow_pos (by norm_num) e

theorem two_zpow_le {a b : ℤ} (h : a ≤ b) : (2 : ℚ) ^ a ≤ (2 : ℚ) ^ b :=
  zpow_le_zpow_right₀ (by norm_num) h

theorem two_zpow_split (e : ℤ) (k : ℕ) : (2 : ℚ) ^ (e + k) = (2 : ℚ) ^ k * (2 : ℚ) ^ e := by
  rw [zpow_add₀ (by norm_num : (2 : ℚ) ≠ 0), zpow_natCast, mul_comm]

/-- Value of `roundQ` on a positive argument whose binade is known. -/
theorem roundQ_pos_eq {x : ℚ} (hx : 0 < x) :
    roundQ x = (roundHalfEven (x / (2 : ℚ) ^ (max (Int.log 2 x) (-1022) - 52)) : ℚ)
      * (2 : ℚ) ^ (max (Int.log 2 x) (-1022) - 52) := by
  unfold roundQ
  rw [if_neg (ne_of_gt hx), abs_of_pos hx]

theorem log_two_bounds {x : ℚ} (hx : 0 < x) :
    (2 : ℚ) ^ (Int.log 2 x) ≤ x ∧ x < (2 : ℚ) ^ (Int.log 2 x + 1) := by
  have h1 := Int.zpow_log_le_self (R := ℚ) (b := 2) (r := x) (by norm_num) hx
  have h2 := Int.lt_zpow_succ_log_self (R := ℚ) (b := 2) (by norm_num) x
  exact ⟨by exact_mod_cast h1, by exact_mod_cast h2⟩

theorem log_two_ge {x : ℚ} {e : ℤ} (hx : 0 < x) (h : (2 : ℚ) ^ e ≤ x) : e ≤ Int.log 2 x := by
  have := (Int.zpow_le_iff_le_log (R := ℚ) (b := 2) (by norm_num) (x := e) (r := x) hx).mp
  apply this
  exact_mod_cast h

theorem log_two_lt {x : ℚ} {e : ℤ} (hx : 0 < x) (h : x < (2 : ℚ) ^ e) : Int.log 2 x < e := by
  have := (Int.lt_zpow_iff_log_lt (R := ℚ) (b := 2) (by norm_num) (x := e) (r := x) hx).mp
  apply this
  exact_mod_cast h

/-- Rounding never goes below a representable value that the argument reaches. -/
theorem roundQ_ge (e M : ℤ) (he : -1022 ≤ e) (hM : 2 ^ 52 ≤ M) (hM2 : M < 2 ^ 53) {x : ℚ}
    (hx : (M : ℚ) * (2 : ℚ) ^ (e - 52) ≤ x) : (M : ℚ) * (2 : ℚ) ^ (e - 52) ≤ roundQ x := by
  have hu := two_zpow_pos (e - 52)
  have hMq : ((2 : ℚ) ^ 52) ≤ (M : ℚ) := by exact_mod_cast hM
  have hMq2 : (M : ℚ) < (2 : ℚ) ^ 53 := by exact_mod_cast hM2
  have hsplit : (2 : ℚ) ^ e = 2 ^ 52 * (2 : ℚ) ^ (e - 52) := by
    have := two_zpow_split (e - 52) 52
    simpa using this
  have hce : (2 : ℚ) ^ e ≤ x := by
    rw [hsplit]; exact le_trans (mul_le_mul_of_nonneg_right hMq hu.le) hx
  have hx0 : 0 < x := lt_of_lt_of_le (two_zpow_pos e) hce
  have hlog := log_two_ge hx0 hce
  have hmax : max (Int.log 2 x) (-1022) = Int.log 2 x := max_eq_left (by omega)
  rw [roundQ_pos_eq hx0, hmax]
  set ex := Int.log 2 x with hex
  have hux := two_zpow_pos (ex - 52)
  rcases eq_or_lt_of_le hlog with heq | hlt
  · rw [← heq]
    have : (M : ℚ) ≤ x / (2 : ℚ) ^ (e - 52) := (le_div_iff₀ hu).mpr hx
    have := roundHalfEven_ge this
    exact mul_le_mul_of_nonneg_right (by exact_mod_cast this) hu.le
  · have hb := (log_two_bounds hx0).1
    have hsplit2 : (2 : ℚ) ^ ex = 2 ^ 52 * (2 : ℚ) ^ (ex - 52) := by
      have := two_zpow_split (ex - 52) 52
      simpa using this
    have h1 : (((2 : ℤ) ^ 52 : ℤ) : ℚ) ≤ x / (2 : ℚ) ^ (ex - 52) := by
      have h52 : (((2 : ℤ) ^ 52 : ℤ) : ℚ) = (2 : ℚ) ^ 52 := by norm_num
      rw [le_div_iff₀ hux, h52, ← hsplit2]; exact hb
    have h2 := roundHalfEven_ge h1
    have h3 : ((2 : ℚ) ^ 52) ≤ (roundHalfEven (x / (2 : ℚ) ^ (ex - 52)) : ℚ) := by exact_mod_cast h2
    have h4 : (2 : ℚ) ^ ex ≤ (roundHalfEven (x / (2 : ℚ) ^ (ex - 52)) : ℚ) * (2 : ℚ) ^ (ex - 52) := by
      rw [hsplit2]; exact mul_le_mul_of_nonneg_right h3 hux.le
    have h5 : (2 : ℚ) ^ (e + 1) ≤ (2 : ℚ) ^ ex := two_zpow_le (by omega)
    have h6 : (2 : ℚ) ^ (e + 1) = 2 ^ 53 * (2 : ℚ) ^ (e - 52) := by
      have := two_zpow_split (e - 52) 53
      rw [← this]; congr 1; ring
    have h7 : (M : ℚ) * (2 : ℚ) ^ (e - 52) ≤ 2 ^ 53 * (2 : ℚ) ^ (e - 52) :=
      mul_le_mul_of_nonneg_right hMq2.le hu.le
    linarith

theorem roundQ_ne_zero_eq {x : ℚ} (hx : x ≠ 0) :
    roundQ x = (roundHalfEven (x / (2 : ℚ) ^ (max (Int.log 2 |x|) (-1022) - 52)) : ℚ)
      * (2 : ℚ) ^ (max (Int.log 2 |x|) (-1022) - 52) := by
  unfold roundQ
  rw [if_neg hx]

theorem roundQ_nonpos {x : ℚ} (hx : x ≤ 0) : roundQ x ≤ 0 := by
  rcases eq_or_lt_of_le hx with h0 | hneg
  · simp [roundQ, h0]
  · rw [roundQ_ne_zero_eq (ne_of_lt hneg)]
    set u := (2 : ℚ) ^ (max (Int.log 2 |x|) (-1022) - 52) with hu
    have hupos : 0 < u := two_zpow_pos _
    have h1 : x / u ≤ ((0 : ℤ) : ℚ) := by
      simpa using (div_nonpos_of_nonpos_of_nonneg hx hupos.le)
    have h2 := roundHalfEven_le h1
    have h3 : (roundHalfEven (x / u) : ℚ) ≤ 0 := by exact_mod_cast h2
    exact mul_nonpos_of_nonpos_of_nonneg h3 hupos.le

/-- Rounding never goes above a representable value that bounds the argument. -/
theorem roundQ_le (e M : ℤ) (he : -1022 ≤ e) (hM : 2 ^ 52 ≤ M) (hM2 : M < 2 ^ 53) {x : ℚ}
    (hx : x ≤ (M : ℚ) * (2 : ℚ) ^ (e - 52)) : roundQ x ≤ (M : ℚ) * (2 : ℚ) ^ (e - 52) := by
  have hu := two_zpow_pos (e - 52)
  have hMq : ((2 : ℚ) ^ 52) ≤ (M : ℚ) := by exact_mod_cast hM
  have hMq2 : (M : ℚ) < (2 : ℚ) ^ 53 := by exact_mod_cast hM2
  have hsplit : (2 : ℚ) ^ e = 2 ^ 52 * (2 : ℚ) ^ (e - 52) := by
    have := two_zpow_split (e - 52) 52
    simpa using this
  have hc0 : 0 < (M : ℚ) * (2 : ℚ) ^ (e - 52) :=
    mul_pos (lt_of_lt_of_le (by norm_num) hMq) hu
  rcases le_or_lt x 0 with hx0 | hx0
  · exact le_trans (roundQ_nonpos hx0) hc0.le
  · have h6 : (2 : ℚ) ^ (e + 1) = 2 ^ 53 * (2 : ℚ) ^ (e - 52) := by
      have := two_zpow_split (e - 52) 53
      rw [← this]; congr 1; ring
    have hlt : x < (2 : ℚ) ^ (e + 1) := by
      rw [h6]; exact lt_of_le_of_lt hx (mul_lt_mul_of_pos_right hMq2 hu)
    have hlog := log_two_lt hx0 hlt
    rw [roundQ_pos_eq hx0]
    set e' := max (Int.log 2 x) (-1022) with he'
    have hle : e' ≤ e := max_le (by omega) he
    have hux := two_zpow_pos (e' - 52)
    rcases eq_or_lt_of_le hle with heq | hlt'
    · rw [heq]
      have : x / (2 : ℚ) ^ (e - 52) ≤ (M : ℚ) := (div_le_iff₀ hu).mpr hx
      have := roundHalfEven_le this
      exact mul_le_mul_of_nonneg_right (by exact_mod_cast this) hu.le
    · have hb := (log_two_bounds hx0).2
      have hb2 : (2 : ℚ) ^ (Int.log 2 x + 1) ≤ (2 : ℚ) ^ (e' + 1) :=
        two_zpow_le (by have := le_max_left (Int.log 2 x) (-1022); omega)
      have hsplit2 : (2 : ℚ) ^ (e' + 1) = 2 ^ 53 * (2 : ℚ) ^ (e' - 52) := by
        have := two_zpow_split (e' - 52) 53
        rw [← this]; congr 1; ring
      have h53 : (((2 : ℤ) ^ 53 : ℤ) : ℚ) = (2 : ℚ) ^ 53 := by norm_num
      have h1 : x / (2 : ℚ) ^ (e' - 52) ≤ (((2 : ℤ) ^ 53 : ℤ) : ℚ) := by
        rw [div_le_iff₀ hux, h53, ← hsplit2]; linarith
      have h2 := roundHalfEven_le h1
      have h3 : (roundHalfEven (x / (2 : ℚ) ^ (e' - 52)) : ℚ) ≤ (2 : ℚ) ^ 53 := by
        rw [← h53]; exact_mod_cast h2
      have h4 : (roundHalfEven (x / (2 : ℚ) ^ (e' - 52)) : ℚ) * (2 : ℚ) ^ (e' - 52)
          ≤ (2 : ℚ) ^ (e' + 1) := by
        rw [hsplit2]; exact mul_le_mul_of_nonneg_right h3 hux.le
      have h5 : (2 : ℚ) ^ (e' + 1) ≤ (2 : ℚ) ^ e := two_zpow_le (by omega)
      have h7 : (2 : ℚ) ^ 52 * (2 : ℚ) ^ (e - 52) ≤ (M : ℚ) * (2 : ℚ) ^ (e - 52) :=
        mul_le_mul_of_nonneg_right hMq hu.le
      linarith

/-- A representable value is a fixed point of rounding. -/
theorem roundQ_repr (e M : ℤ) (he : -1022 ≤ e) (hM : 2 ^ 52 ≤ M) (hM2 : M < 2 ^ 53) :
    roundQ ((M : ℚ) * (2 : ℚ) ^ (e - 52)) = (M : ℚ) * (2 : ℚ) ^ (e - 52) :=
  le_antisymm (roundQ_le e M he hM hM2 le_rfl) (roundQ_ge e M he hM hM2 le_rfl)

/-- Exact value of rounding when the scaled argument is within half a unit of an integer. -/
theorem roundQ_near (e M : ℤ) (he : -1022 ≤ e) {x : ℚ} (h1 : (2 : ℚ) ^ e ≤ x)
    (h2 : x < (2 : ℚ) ^ (e + 1)) (h : |x / (2 : ℚ) ^ (e - 52) - M| < 1 / 2) :
    roundQ x = (M : ℚ) * (2 : ℚ) ^ (e - 52) := by
  have hx0 : 0 < x := lt_of_lt_of_le (two_zpow_pos e) h1
  have hlog : Int.log 2 x = e := by
    have a := log_two_ge hx0 h1
    have b := log_two_lt hx0 h2
    omega
  rw [roundQ_pos_eq hx0, hlog, max_eq_left he, roundHalfEven_near h]

/-- Magnitude bound: rounding stays within the enclosing power of two. -/
theorem roundQ_abs_le {x : ℚ} {k : ℤ} (hk : -1021 ≤ k) (hx : |x| < (2 : ℚ) ^ k) :
    |roundQ x| ≤ (2 : ℚ) ^ k := by
  rcases eq_or_ne x 0 with h0 | h0
  · simp [roundQ, h0, (two_zpow_pos k).le]
  · have hax : 0 < |x| := abs_pos.mpr h0
    have hlog := log_two_lt hax hx
    rw [roundQ_ne_zero_eq h0]
    set e' := max (Int.log 2 |x|) (-1022) with he'
    have hle : e' + 1 ≤ k := by
      have : e' ≤ k - 1 := max_le (by omega) (by omega)
      omega
    have hux := two_zpow_pos (e' - 52)
    have hb := (log_two_bounds hax).2
    have hb2 : (2 : ℚ) ^ (Int.log 2 |x| + 1) ≤ (2 : ℚ) ^ (e' + 1) :=
      two_zpow_le (by have := le_max_left (Int.log 2 |x|) (-1022); omega)
    have hsplit2 : (2 : ℚ) ^ (e' + 1) = 2 ^ 53 * (2 : ℚ) ^ (e' - 52) := by
      have := two_zpow_split (e' - 52) 53
      rw [← this]; congr 1; ring
    have h53 : (((2 : ℤ) ^ 53 : ℤ) : ℚ) = (2 : ℚ) ^ 53 := by norm_num
    have h53n : (((-(2 : ℤ) ^ 53 : ℤ)) : ℚ) = -(2 : ℚ) ^ 53 := by norm_num
    have habs := abs_lt.mp (lt_of_lt_of_le hb hb2)
    have h1 : x / (2 : ℚ) ^ (e' - 52) ≤ (((2 : ℤ) ^ 53 : ℤ) : ℚ) := by
      rw [div_le_iff₀ hux, h53, ← hsplit2]; linarith [habs.2]
    have h1n : ((-(2 : ℤ) ^ 53 : ℤ) : ℚ) ≤ x / (2 : ℚ) ^ (e' - 52) := by
      rw [le_div_iff₀ hux, h53n, neg_mul, ← hsplit2]; linarith [habs.1]
    have h2 := roundHalfEven_le h1
    have h2n := roundHalfEven_ge h1n
    have h3 : (roundHalfEven (x / (2 : ℚ) ^ (e' - 52)) : ℚ) ≤ (2 : ℚ) ^ 53 := by
      rw [← h53]; exact_mod_cast h2
    have h3n : -(2 : ℚ) ^ 53 ≤ (roundHalfEven (x / (2 : ℚ) ^ (e' - 52)) : ℚ) := by
      rw [← h53n]; exact_mod_cast h2n
    have h5 : (2 : ℚ) ^ (e' + 1) ≤ (2 : ℚ) ^ k := two_zpow_le hle
    rw [abs_le]
    constructor
    · have : -(2 : ℚ) ^ 53 * (2 : ℚ) ^ (e' - 52)
          ≤ (roundHalfEven (x / (2 : ℚ) ^ (e' - 52)) : ℚ) * (2 : ℚ) ^ (e' - 52) :=
        mul_le_mul_of_nonneg_right h3n hux.le
      rw [neg_mul, ← hsplit2] at this
      linarith
    · have : (roundHalfEven (x / (2 : ℚ) ^ (e' - 52)) : ℚ) * (2 : ℚ) ^ (e' - 52)
          ≤ (2 : ℚ) ^ 53 * (2 : ℚ) ^ (e' - 52) :=
        mul_le_mul_of_nonneg_right h3 hux.le
      rw [← hsplit2] at this
      linarith

/-- Integers of magnitude below `2^53` are representable: converting them is exact. -/
theorem roundQ_intCast (n : ℤ) (hn : |n| < 2 ^ 53) : roundQ (n : ℚ) = n := by
  rcases eq_or_ne n 0 with h0 | h0
  · simp [roundQ, h0]
  · have hq0 : (n : ℚ) ≠ 0 := by exact_mod_cast h0
    have hax : 0 < |(n : ℚ)| := abs_pos.mpr hq0
    have h1 : (1 : ℤ) ≤ |n| := Int.one_le_abs h0
    have h1q : (2 : ℚ) ^ (0 : ℤ) ≤ |(n : ℚ)| := by
      rw [zpow_zero]; exact_mod_cast h1
    have h2q : |(n : ℚ)| < (2 : ℚ) ^ (53 : ℤ) := by
      have : ((|n| : ℤ) : ℚ) < ((2 ^ 53 : ℤ) : ℚ) := by exact_mod_cast hn
      rw [Int.cast_abs] at this
      have h53 : (((2 : ℤ) ^ 53 : ℤ) : ℚ) = (2 : ℚ) ^ (53 : ℤ) := by norm_num
      rw [← h53]; exact this
    have ha := log_two_ge hax h1q
    have hb := log_two_lt hax h2q
    rw [roundQ_ne_zero_eq hq0]
    set e := Int.log 2 |(n : ℚ)| with he
    rw [max_eq_left (by omega)]
    obtain ⟨k, hk⟩ : ∃ k : ℕ, (k : ℤ) = 52 - e := ⟨(52 - e).toNat, by omega⟩
    have hu : (2 : ℚ) ^ (e - 52) = ((2 : ℚ) ^ k)⁻¹ := by
      rw [← zpow_natCast, hk, ← zpow_neg]; congr 1; ring
    have hk2 : ((2 : ℚ) ^ k) ≠ 0 := pow_ne_zero _ (by norm_num)
    have hdiv : (n : ℚ) / (2 : ℚ) ^ (e - 52) = ((n * 2 ^ k : ℤ) : ℚ) := by
      rw [hu, div_inv_eq_mul]; push_cast; ring
    rw [hdiv, roundHalfEven_intCast, hu]
    push_cast
    field_simp

/-! ### The four thresholds as binary64 values -/

theorem ofRat_eq_fin {x : ℚ} (hx : |x| < (2 : ℚ) ^ (54 : ℤ)) : F64.ofRat x = F64.fin (roundQ x) := by
  have h := roundQ_abs_le (by norm_num) hx
  have h2 : ¬ ((2 : ℚ) ^ 1024 ≤ |roundQ x|) := by
    have : (2 : ℚ) ^ (54 : ℤ) < (2 : ℚ) ^ 1024 := by norm_num
    intro hc; linarith
  simp only [F64.ofRat, if_neg h2]

theorem ofInt_eq_fin (n : ℤ) (hn : |n| < 2 ^ 53) : F64.ofInt n = F64.fin n := by
  have hq : |(n : ℚ)| < (2 : ℚ) ^ (54 : ℤ) := by
    have : ((|n| : ℤ) : ℚ) < ((2 ^ 53 : ℤ) : ℚ) := by exact_mod_cast hn
    rw [Int.cast_abs] at this
    have h2 : (((2 : ℤ) ^ 53 : ℤ) : ℚ) < (2 : ℚ) ^ (54 : ℤ) := by norm_num
    linarith
  rw [F64.ofInt, ofRat_eq_fin hq, roundQ_intCast n hn]

theorem roundQ_c170 : roundQ (17 / 10) = (7656119366529843 : ℤ) * (2 : ℚ) ^ ((0 : ℤ) - 52) := by
  apply roundQ_near 0 _ (by norm_num) (by norm_num) (by norm_num)
  rw [abs_lt]; constructor <;> norm_num

theorem roundQ_c178 : roundQ (89 / 50) = (8016407336719483 : ℤ) * (2 : ℚ) ^ ((0 : ℤ) - 52) := by
  apply roundQ_near 0 _ (by norm_num) (by norm_num) (by norm_num)
  rw [abs_lt]; constructor <;> norm_num

theorem roundQ_c050 : roundQ (1 / 2) = (4503599627370496 : ℤ) * (2 : ℚ) ^ ((-1 : ℤ) - 52) := by
  apply roundQ_near (-1) _ (by norm_num) (by norm_num) (by norm_num)
  rw [abs_lt]; constructor <;> norm_num

theorem roundQ_c058 : roundQ (29 / 50) = (5224175567749775 : ℤ) * (2 : ℚ) ^ ((-1 : ℤ) - 52) := by
  apply roundQ_near (-1) _ (by norm_num) (by norm_num) (by norm_num)
  rw [abs_lt]; constructor <;> norm_num

/-! ### Classification without rounding -/

theorem ratio_lt_gap (w h a b : ℤ) (hh : 0 < h) (hb : 0 < b)
    (hlt : (w : ℚ) / h < (a : ℚ) / b) : (w : ℚ) / h ≤ (a : ℚ) / b - 1 / ((b : ℚ) * h) := by
  have hhq : (0 : ℚ) < h := by exact_mod_cast hh
  have hbq : (0 : ℚ) < b := by exact_mod_cast hb
  rw [div_lt_div_iff₀ hhq hbq] at hlt
  have h1 : w * b < a * h := by exact_mod_cast hlt
  have h2 : w * b + 1 ≤ a * h := h1
  have h3 : (w : ℚ) * b + 1 ≤ (a : ℚ) * h := by exact_mod_cast h2
  rw [div_sub_div _ _ (ne_of_gt hbq) (ne_of_gt (mul_pos hbq hhq)),
    div_le_div_iff₀ hhq (mul_pos hbq (mul_pos hbq hhq))]
  nlinarith [mul_pos hbq hhq, mul_nonneg hbq.le (mul_nonneg hbq.le hhq.le)]

theorem ratio_gt_gap (w h a b : ℤ) (hh : 0 < h) (hb : 0 < b)
    (hlt : (a : ℚ) / b < (w : ℚ) / h) : (a : ℚ) / b + 1 / ((b : ℚ) * h) ≤ (w : ℚ) / h := by
  have hhq : (0 : ℚ) < h := by exact_mod_cast hh
  have hbq : (0 : ℚ) < b := by exact_mod_cast hb
  rw [div_lt_div_iff₀ hbq hhq] at hlt
  have h1 : a * h < w * b := by exact_mod_cast hlt
  have h2 : a * h + 1 ≤ w * b := h1
  have h3 : (a : ℚ) * h + 1 ≤ (w : ℚ) * b := by exact_mod_cast h2
  rw [div_add_div _ _ (ne_of_gt hbq) (ne_of_gt (mul_pos hbq hhq)),
    div_le_div_iff₀ (mul_pos hbq (mul_pos hbq hhq)) hhq]
  nlinarith [mul_pos hbq hhq, mul_nonneg hbq.le (mul_nonneg hbq.le hhq.le)]

theorem gap_bound (b h : ℤ) (hh : 0 < h) (hb : 0 < b) (hH : h ≤ 2 ^ 46) :
    1 / ((b : ℚ) * (2 : ℚ) ^ 46) ≤ 1 / ((b : ℚ) * h) := by
  have hhq : (0 : ℚ) < h := by exact_mod_cast hh
  have hbq : (0 : ℚ) < b := by exact_mod_cast hb
  have hHq : (h : ℚ) ≤ (2 : ℚ) ^ 46 := by exact_mod_cast hH
  exact one_div_le_one_div_of_le (mul_pos hbq hhq) (mul_le_mul_of_nonneg_left hHq hbq.le)

theorem ge170_iff (w h : ℤ) (hh : 0 < h) (hH : h ≤ 2 ^ 46) :
    (7656119366529843 : ℤ) * (2 : ℚ) ^ ((0 : ℤ) - 52) ≤ roundQ ((w : ℚ) / h)
      ↔ (17 : ℚ) / 10 ≤ (w : ℚ) / h := by
  constructor
  · intro hc
    by_contra hlt
    rw [not_le] at hlt
    have g := ratio_lt_gap w h 17 10 hh (by norm_num) (by push_cast; exact hlt)
    have gb := gap_bound 10 h hh (by norm_num) hH
    have hp : (w : ℚ) / h ≤ (7656119366529842 : ℤ) * (2 : ℚ) ^ ((0 : ℤ) - 52) := by
      have : (17 : ℚ) / 10 - 1 / (10 * (2 : ℚ) ^ 46)
          ≤ (7656119366529842 : ℤ) * (2 : ℚ) ^ ((0 : ℤ) - 52) := by norm_num
      push_cast at g gb ⊢
      linarith
    have := roundQ_le 0 7656119366529842 (by norm_num) (by norm_num) (by norm_num) hp
    have hlt2 : ((7656119366529842 : ℤ) : ℚ) * (2 : ℚ) ^ ((0 : ℤ) - 52)
        < (7656119366529843 : ℤ) * (2 : ℚ) ^ ((0 : ℤ) - 52) := by norm_num
    linarith
  · intro ht
    apply roundQ_ge 0 7656119366529843 (by norm_num) (by norm_num) (by norm_num)
    have : ((7656119366529843 : ℤ) : ℚ) * (2 : ℚ) ^ ((0 : ℤ) - 52) ≤ 17 / 10 := by norm_num
    linarith

theorem le178_iff (w h : ℤ) (hh : 0 < h) (hH : h ≤ 2 ^ 46) :
    roundQ ((w : ℚ) / h) ≤ (8016407336719483 : ℤ) * (2 : ℚ) ^ ((0 : ℤ) - 52)
      ↔ (w : ℚ) / h ≤ (89 : ℚ) / 50 := by
  constructor
  · intro hc
    by_contra hlt
    rw [not_le] at hlt
    have g := ratio_gt_gap w h 89 50 hh (by norm_num) (by push_cast; exact hlt)
    have gb := gap_bound 50 h hh (by norm_num) hH
    have hp : ((8016407336719484 : ℤ) : ℚ) * (2 : ℚ) ^ ((0 : ℤ) - 52) ≤ (w : ℚ) / h := by
      have : ((8016407336719484 : ℤ) : ℚ) * (2 : ℚ) ^ ((0 : ℤ) - 52)
          ≤ (89 : ℚ) / 50 + 1 / (50 * (2 : ℚ) ^ 46) := by norm_num
      push_cast at g gb ⊢
      linarith
    have := roundQ_ge 0 8016407336719484 (by norm_num) (by norm_num) (by norm_num) hp
    have hlt2 : ((8016407336719483 : ℤ) : ℚ) * (2 : ℚ) ^ ((0 : ℤ) - 52)
        < (8016407336719484 : ℤ) * (2 : ℚ) ^ ((0 : ℤ) - 52) := by norm_num
    linarith
  · intro ht
    apply roundQ_le 0 8016407336719483 (by norm_num) (by norm_num) (by norm_num)
    have : (89 : ℚ) / 50 ≤ ((8016407336719483 : ℤ) : ℚ) * (2 : ℚ) ^ ((0 : ℤ) - 52) := by norm_num
    linarith

theorem ge050_iff (w h : ℤ) (hh : 0 < h) (hH : h ≤ 2 ^ 46) :
    (4503599627370496 : ℤ) * (2 : ℚ) ^ ((-1 : ℤ) - 52) ≤ roundQ ((w : ℚ) / h)
      ↔ (1 : ℚ) / 2 ≤ (w : ℚ) / h := by
  constructor
  · intro hc
    by_contra hlt
    rw [not_le] at hlt
    have g := ratio_lt_gap w h 1 2 hh (by norm_num) (by push_cast; exact hlt)
    have gb := gap_bound 2 h hh (by norm_num) hH
    have hp : (w : ℚ) / h ≤ (9007199254740991 : ℤ) * (2 : ℚ) ^ ((-2 : ℤ) - 52) := by
      have : (1 : ℚ) / 2 - 1 / (2 * (2 : ℚ) ^ 46)
          ≤ (9007199254740991 : ℤ) * (2 : ℚ) ^ ((-2 : ℤ) - 52) := by norm_num
      push_cast at g gb ⊢
      linarith
    have := roundQ_le (-2) 9007199254740991 (by norm_num) (by norm_num) (by norm_num) hp
    have hlt2 : ((9007199254740991 : ℤ) : ℚ) * (2 : ℚ) ^ ((-2 : ℤ) - 52)
        < (4503599627370496 : ℤ) * (2 : ℚ) ^ ((-1 : ℤ) - 52) := by norm_num
    linarith
  · intro ht
    apply roundQ_ge (-1) 4503599627370496 (by norm_num) (by norm_num) (by norm_num)
    have : ((4503599627370496 : ℤ) : ℚ) * (2 : ℚ) ^ ((-1 : ℤ) - 52) ≤ 1 / 2 := by norm_num
    linarith

theorem le058_iff (w h : ℤ) (hh : 0 < h) (hH : h ≤ 2 ^ 46) :
    roundQ ((w : ℚ) / h) ≤ (5224175567749775 : ℤ) * (2 : ℚ) ^ ((-1 : ℤ) - 52)
      ↔ (w : ℚ) / h ≤ (29 : ℚ) / 50 := by
  constructor
  · intro hc
    by_contra hlt
    rw [not_le] at hlt
    have g := ratio_gt_gap w h 29 50 hh (by norm_num) (by push_cast; exact hlt)
    have gb := gap_bound 50 h hh (by norm_num) hH
    have hp : ((5224175567749776 : ℤ) : ℚ) * (2 : ℚ) ^ ((-1 : ℤ) - 52) ≤ (w : ℚ) / h := by
      have : ((5224175567749776 : ℤ) : ℚ) * (2 : ℚ) ^ ((-1 : ℤ) - 52)
          ≤ (29 : ℚ) / 50 + 1 / (50 * (2 : ℚ) ^ 46) := by norm_num
      push_cast at g gb ⊢
      linarith
    have := roundQ_ge (-1) 5224175567749776 (by norm_num) (by norm_num) (by norm_num) hp
    have hlt2 : ((5224175567749775 : ℤ) : ℚ) * (2 : ℚ) ^ ((-1 : ℤ) - 52)
        < (5224175567749776 : ℤ) * (2 : ℚ) ^ ((-1 : ℤ) - 52) := by norm_num
    linarith
  · intro ht
    rcases eq_or_lt_of_le ht with heq | hlt
    · rw [heq, roundQ_c058]
    · have g := ratio_lt_gap w h 29 50 hh (by norm_num) (by push_cast; exact hlt)
      have gb := gap_bound 50 h hh (by norm_num) hH
      apply roundQ_le (-1) 5224175567749775 (by norm_num) (by norm_num) (by norm_num)
      have : (29 : ℚ) / 50 - 1 / (50 * (2 : ℚ) ^ 46)
          ≤ ((5224175567749775 : ℤ) : ℚ) * (2 : ℚ) ^ ((-1 : ℤ) - 52) := by norm_num
      push_cast at g gb ⊢
      linarith

theorem roundHalfEven_err (m : ℚ) : |(roundHalfEven m : ℚ) - m| ≤ 1 / 2 := by
  have hf1 := Int.floor_le m
  have hf2 := Int.lt_floor_add_one m
  unfold roundHalfEven
  simp only
  rw [abs_le]
  split_ifs with h1 h2 h3
  · constructor <;> linarith
  · push_cast; constructor <;> linarith
  · constructor <;> linarith
  · push_cast; constructor <;> linarith

/-- Relative error of rounding in the normal range: at most `2^-53`. -/
theorem roundQ_rel_err {x : ℚ} (hx : 1 ≤ x) :
    x * (1 - 1 / 2 ^ 53) ≤ roundQ x ∧ roundQ x ≤ x * (1 + 1 / 2 ^ 53) := by
  have hx0 : 0 < x := by linarith
  have hlog : 0 ≤ Int.log 2 x := log_two_ge hx0 (by simpa using hx)
  rw [roundQ_pos_eq hx0, max_eq_left (by omega)]
  set e := Int.log 2 x with he
  have hu := two_zpow_pos (e - 52)
  have hb := (log_two_bounds hx0).1
  have hsplit : (2 : ℚ) ^ e = 2 ^ 52 * (2 : ℚ) ^ (e - 52) := by
    have := two_zpow_split (e - 52) 52
    simpa using this
  have herr := abs_le.mp (roundHalfEven_err (x / (2 : ℚ) ^ (e - 52)))
  have hm : x / (2 : ℚ) ^ (e - 52) * (2 : ℚ) ^ (e - 52) = x := div_mul_cancel₀ x (ne_of_gt hu)
  set u := (2 : ℚ) ^ (e - 52) with hu'
  set R := (roundHalfEven (x / u) : ℚ) with hR
  rw [← he] at hb
  rw [hsplit] at hb
  constructor
  · have : (x / u - 1 / 2) * u ≤ R * u := mul_le_mul_of_nonneg_right (by linarith [herr.1]) hu.le
    rw [sub_mul, hm] at this
    nlinarith
  · have : R * u ≤ (x / u + 1 / 2) * u := mul_le_mul_of_nonneg_right (by linarith [herr.2]) hu.le
    rw [add_mul, hm] at this
    nlinarith

theorem ofRat_eq_fin_of_lt {x : ℚ} (k : ℤ) (hk1 : -1021 ≤ k) (hk2 : k < 1024)
    (hx : |x| < (2 : ℚ) ^ k) : F64.ofRat x = F64.fin (roundQ x) := by
  have h := roundQ_abs_le hk1 hx
  have h2 : ¬ ((2 : ℚ) ^ 1024 ≤ |roundQ x|) := by
    have hlt : (2 : ℚ) ^ k < (2 : ℚ) ^ (1024 : ℤ) := zpow_lt_zpow_right₀ (by norm_num) hk2
    rw [zpow_ofNat] at hlt
    intro hc; linarith
  simp only [F64.ofRat, if_neg h2]

/-- The code's decision on two finite operands, in terms of the rounded quotient. -/
theorem getVideoAspectRatio_fin (a b : ℚ) (sw sh : ℤ) (rest : List videoSizes)
    (ha : F64.ofInt sw = F64.fin a) (hb : F64.ofInt sh = F64.fin b) (hb0 : b ≠ 0)
    (hq : |a / b| < (2 : ℚ) ^ (100 : ℤ)) :
    getVideoAspectRatio (.data ⟨⟨sw, sh⟩ :: rest⟩) =
      if (7656119366529843 : ℤ) * (2 : ℚ) ^ ((0 : ℤ) - 52) ≤ roundQ (a / b)
          ∧ roundQ (a / b) ≤ (8016407336719483 : ℤ) * (2 : ℚ) ^ ((0 : ℤ) - 52) then
        .ok "portrait".toList
      else if (4503599627370496 : ℤ) * (2 : ℚ) ^ ((-1 : ℤ) - 52) ≤ roundQ (a / b)
          ∧ roundQ (a / b) ≤ (5224175567749775 : ℤ) * (2 : ℚ) ^ ((-1 : ℤ) - 52) then
        .ok "landscape".toList
      else .ok "other".toList := by
  have c1 : F64.ofRat (17 / 10) = F64.fin ((7656119366529843 : ℤ) * (2 : ℚ) ^ ((0 : ℤ) - 52)) := by
    rw [ofRat_eq_fin (by rw [abs_lt]; constructor <;> norm_num), roundQ_c170]
  have c2 : F64.ofRat (89 / 50) = F64.fin ((8016407336719483 : ℤ) * (2 : ℚ) ^ ((0 : ℤ) - 52)) := by
    rw [ofRat_eq_fin (by rw [abs_lt]; constructor <;> norm_num), roundQ_c178]
  have c3 : F64.ofRat (1 / 2) = F64.fin ((4503599627370496 : ℤ) * (2 : ℚ) ^ ((-1 : ℤ) - 52)) := by
    rw [ofRat_eq_fin (by rw [abs_lt]; constructor <;> norm_num), roundQ_c050]
  have c4 : F64.ofRat (29 / 50) = F64.fin ((5224175567749775 : ℤ) * (2 : ℚ) ^ ((-1 : ℤ) - 52)) := by
    rw [ofRat_eq_fin (by rw [abs_lt]; constructor <;> norm_num), roundQ_c058]
  simp only [getVideoAspectRatio, ha, hb, F64.div, if_neg hb0,
    ofRat_eq_fin_of_lt 100 (by norm_num) (by norm_num) hq, c1, c2, c3, c4,
    F64.ge, F64.le, Bool.and_eq_true, decide_eq_true_eq]

/-- For frame sizes that `float64` represents exactly and whose ratio cannot fall within
one rounding step of a threshold, the code decides as the exact ratio does. -/
theorem getVideoAspectRatio_small (w h : ℤ) (rest : List videoSizes) (hw : |w| < 2 ^ 53)
    (hh : 0 < h) (hH : h ≤ 2 ^ 46) :
    getVideoAspectRatio (.data ⟨⟨w, h⟩ :: rest⟩) = .ok (specClassify ((w : ℚ) / h)) := by
  have hhq : (0 : ℚ) < h := by exact_mod_cast hh
  have h1 : (1 : ℚ) ≤ h := by exact_mod_cast hh
  have hhabs : |h| < 2 ^ 53 := by rw [abs_of_pos hh]; omega
  have hwq : |(w : ℚ)| < (2 : ℚ) ^ (53 : ℤ) := by
    have : ((|w| : ℤ) : ℚ) < ((2 ^ 53 : ℤ) : ℚ) := by exact_mod_cast hw
    rw [Int.cast_abs] at this
    have h53 : (((2 : ℤ) ^ 53 : ℤ) : ℚ) = (2 : ℚ) ^ (53 : ℤ) := by norm_num
    rw [← h53]; exact this
  have hq : |(w : ℚ) / h| < (2 : ℚ) ^ (100 : ℤ) := by
    rw [abs_div, abs_of_pos hhq, div_lt_iff₀ hhq]
    have : (2 : ℚ) ^ (53 : ℤ) ≤ (2 : ℚ) ^ (100 : ℤ) * h := by
      have : (2 : ℚ) ^ (53 : ℤ) ≤ (2 : ℚ) ^ (100 : ℤ) := by norm_num
      nlinarith
    linarith
  rw [getVideoAspectRatio_fin w h w h rest (ofInt_eq_fin w hw) (ofInt_eq_fin h hhabs)
    (ne_of_gt hhq) hq]
  simp only [ge170_iff w h hh hH, le178_iff w h hh hH, ge050_iff w h hh hH, le058_iff w h hh hH,
    specClassify]
  split_ifs <;> rfl

/-- A width of `2^53` or more with a height of at most `2^46`: the ratio is at least `128`
before and after rounding, and the label is `other`. -/
theorem getVideoAspectRatio_wide (w h : ℤ) (rest : List videoSizes) (hw : 2 ^ 53 ≤ w)
    (hw2 : w < 2 ^ 63) (hh : 0 < h) (hH : h ≤ 2 ^ 46) :
    getVideoAspectRatio (.data ⟨⟨w, h⟩ :: rest⟩) = .ok (specClassify ((w : ℚ) / h)) := by
  have hhq : (0 : ℚ) < h := by exact_mod_cast hh
  have h1 : (1 : ℚ) ≤ h := by exact_mod_cast hh
  have hHq : (h : ℚ) ≤ 2 ^ 46 := by exact_mod_cast hH
  have hhabs : |h| < 2 ^ 53 := by rw [abs_of_pos hh]; omega
  have hwq : (2 : ℚ) ^ 53 ≤ (w : ℚ) := by exact_mod_cast hw
  have hwq2 : (w : ℚ) ≤ (2 : ℚ) ^ 63 := by
    have : (w : ℚ) < (2 : ℚ) ^ 63 := by exact_mod_cast hw2
    exact this.le
  have hwabs : |(w : ℚ)| < (2 : ℚ) ^ (64 : ℤ) := by
    rw [abs_of_pos (by linarith)]
    have : (2 : ℚ) ^ 63 < (2 : ℚ) ^ (64 : ℤ) := by norm_num
    linarith
  have ha1 : (2 : ℚ) ^ 53 ≤ roundQ w := by
    have := roundQ_ge 53 4503599627370496 (by norm_num) (by norm_num) (by norm_num)
      (x := (w : ℚ)) (by norm_num; linarith)
    norm_num at this
    linarith
  have ha2 : roundQ w ≤ (2 : ℚ) ^ 63 := by
    have := roundQ_le 63 4503599627370496 (by norm_num) (by norm_num) (by norm_num)
      (x := (w : ℚ)) (by norm_num; linarith)
    norm_num at this
    linarith
  have hq1 : (2 : ℚ) ≤ roundQ w / h := by
    rw [le_div_iff₀ hhq]; nlinarith
  have hq2 : roundQ w / h ≤ (2 : ℚ) ^ 63 := by
    rw [div_le_iff₀ hhq]; nlinarith
  have hq : |roundQ (w : ℚ) / h| < (2 : ℚ) ^ (100 : ℤ) := by
    rw [abs_of_pos (by linarith)]
    have : (2 : ℚ) ^ 63 < (2 : ℚ) ^ (100 : ℤ) := by norm_num
    linarith
  have hr : (2 : ℚ) ≤ roundQ (roundQ (w : ℚ) / h) := by
    have := roundQ_ge 1 4503599627370496 (by norm_num) (by norm_num) (by norm_num)
      (x := roundQ (w : ℚ) / h) (by norm_num; linarith)
    norm_num at this
    linarith
  have hs : (2 : ℚ) ≤ (w : ℚ) / h := by
    rw [le_div_iff₀ hhq]; nlinarith
  rw [getVideoAspectRatio_fin (roundQ w) h w h rest
    (by rw [F64.ofInt, ofRat_eq_fin_of_lt 64 (by norm_num) (by norm_num) hwabs])
    (ofInt_eq_fin h hhabs) (ne_of_gt hhq) hq]
  have n1 : ¬ (roundQ (roundQ (w : ℚ) / h)
      ≤ ((8016407336719483 : ℤ) : ℚ) * (2 : ℚ) ^ ((0 : ℤ) - 52)) := by
    norm_num; linarith
  have n2 : ¬ (roundQ (roundQ (w : ℚ) / h)
      ≤ ((5224175567749775 : ℤ) : ℚ) * (2 : ℚ) ^ ((-1 : ℤ) - 52)) := by
    norm_num; linarith
  have n3 : ¬ ((w : ℚ) / h ≤ 89 / 50) := by linarith
  have n4 : ¬ ((w : ℚ) / h ≤ 29 / 50) := by linarith
  simp only [n1, n2, n3, n4, and_false, if_false, specClassify]

/-- A width of `-2^53` or less: the ratio is negative before and after rounding, and the
label is `other`. -/
theorem getVideoAspectRatio_negative (w h : ℤ) (rest : List videoSizes) (hw : w ≤ -2 ^ 53)
    (hw2 : -2 ^ 63 ≤ w) (hh : 0 < h) (hH : h ≤ 2 ^ 46) :
    getVideoAspectRatio (.data ⟨⟨w, h⟩ :: rest⟩) = .ok (specClassify ((w : ℚ) / h)) := by
  have hhq : (0 : ℚ) < h := by exact_mod_cast hh
  have h1 : (1 : ℚ) ≤ h := by exact_mod_cast hh
  have hhabs : |h| < 2 ^ 53 := by rw [abs_of_pos hh]; omega
  have hwq : (w : ℚ) ≤ -(2 : ℚ) ^ 53 := by exact_mod_cast hw
  have hwq2 : -(2 : ℚ) ^ 63 ≤ (w : ℚ) := by exact_mod_cast hw2
  have hwabs : |(w : ℚ)| < (2 : ℚ) ^ (64 : ℤ) := by
    rw [abs_of_neg (by linarith)]
    have : (2 : ℚ) ^ 63 < (2 : ℚ) ^ (64 : ℤ) := by norm_num
    linarith
  have ha1 : roundQ w ≤ 0 := roundQ_nonpos (by linarith)
  have ha2 := abs_le.mp (roundQ_abs_le (by norm_num) hwabs)
  have hq1 : roundQ w / h ≤ 0 := div_nonpos_of_nonpos_of_nonneg ha1 hhq.le
  have hq2 : -(2 : ℚ) ^ (64 : ℤ) ≤ roundQ w / h := by
    rw [le_div_iff₀ hhq]
    have : (0 : ℚ) < (2 : ℚ) ^ (64 : ℤ) := by norm_num
    nlinarith [ha2.1]
  have hq : |roundQ (w : ℚ) / h| < (2 : ℚ) ^ (100 : ℤ) := by
    rw [abs_of_nonpos hq1]
    have : (2 : ℚ) ^ (64 : ℤ) < (2 : ℚ) ^ (100 : ℤ) := by norm_num
    linarith
  have hr : roundQ (roundQ (w : ℚ) / h) ≤ 0 := roundQ_nonpos hq1
  have hs : (w : ℚ) / h < 0 := div_neg_of_neg_of_pos (by linarith) hhq
  rw [getVideoAspectRatio_fin (roundQ w) h w h rest
    (by rw [F64.ofInt, ofRat_eq_fin_of_lt 64 (by norm_num) (by norm_num) hwabs])
    (ofInt_eq_fin h hhabs) (ne_of_gt hhq) hq]
  have n1 : ¬ (((7656119366529843 : ℤ) : ℚ) * (2 : ℚ) ^ ((0 : ℤ) - 52)
      ≤ roundQ (roundQ (w : ℚ) / h)) := by
    norm_num; linarith
  have n2 : ¬ (((4503599627370496 : ℤ) : ℚ) * (2 : ℚ) ^ ((-1 : ℤ) - 52)
      ≤ roundQ (roundQ (w : ℚ) / h)) := by
    norm_num; linarith
  have n3 : ¬ ((17 : ℚ) / 10 ≤ (w : ℚ) / h) := by linarith
  have n4 : ¬ ((1 : ℚ) / 2 ≤ (w : ℚ) / h) := by linarith
  simp only [n1, n2, n3, n4, false_and, if_false, specClassify]

/-- For every width of a 64-bit `int` and every height up to `2^46`, the code decides as
the exact ratio does. -/
theorem getVideoAspectRatio_exact (w h : ℤ) (rest : List videoSizes) (hw1 : -2 ^ 63 ≤ w)
    (hw2 : w < 2 ^ 63) (hh : 0 < h) (hH : h ≤ 2 ^ 46) :
    getVideoAspectRatio (.data ⟨⟨w, h⟩ :: rest⟩) = .ok (specClassify ((w : ℚ) / h)) := by
  by_cases hs : |w| < 2 ^ 53
  · exact getVideoAspectRatio_small w h rest hs hh hH
  · rcases le_or_lt 0 w with h0 | h0
    · rw [abs_of_nonneg h0] at hs
      exact getVideoAspectRatio_wide w h rest (by omega) hw2 hh hH
    · rw [abs_of_neg h0] at hs
      exact getVideoAspectRatio_negative w h rest (by omega) hw1 hh hH

/-- Every exact `16:9` frame that fits a 64-bit `int` lands in the first bucket, also when
the two conversions to `float64` have to round. -/
theorem getVideoAspectRatio_sixteen_nine (k : ℤ) (rest : List videoSizes) (hk : 1 ≤ k)
    (hk2 : 16 * k < 2 ^ 63) :
    getVideoAspectRatio (.data ⟨⟨16 * k, 9 * k⟩ :: rest⟩) = .ok "portrait".toList := by
  have hK : (1 : ℚ) ≤ (k : ℚ) := by exact_mod_cast hk
  have hK2 : (16 : ℚ) * k < (2 : ℚ) ^ (63 : ℤ) := by
    have : ((16 * k : ℤ) : ℚ) < ((2 ^ 63 : ℤ) : ℚ) := by exact_mod_cast hk2
    have h63 : (((2 : ℤ) ^ 63 : ℤ) : ℚ) = (2 : ℚ) ^ (63 : ℤ) := by norm_num
    rw [← h63]; push_cast at this ⊢; exact this
  have hA : |((16 * k : ℤ) : ℚ)| < (2 : ℚ) ^ (63 : ℤ) := by
    push_cast; rw [abs_of_pos (by linarith)]; exact hK2
  have hB : |((9 * k : ℤ) : ℚ)| < (2 : ℚ) ^ (63 : ℤ) := by
    push_cast; rw [abs_of_pos (by linarith)]; linarith
  have ea := roundQ_rel_err (x := ((16 * k : ℤ) : ℚ)) (by push_cast; linarith)
  have eb := roundQ_rel_err (x := ((9 * k : ℤ) : ℚ)) (by push_cast; linarith)
  set a := roundQ ((16 * k : ℤ) : ℚ) with ha
  set b := roundQ ((9 * k : ℤ) : ℚ) with hb
  push_cast at ea eb
  norm_num at ea eb
  have hb0 : 0 < b := by nlinarith [eb.1]
  have hlow : (7656119366529843 : ℚ) / 4503599627370496 * b ≤ a := by nlinarith [ea.1, eb.2]
  have hhigh : a ≤ (8016407336719483 : ℚ) / 4503599627370496 * b := by nlinarith [ea.2, eb.1]
  have hge : ((7656119366529843 : ℤ) : ℚ) * (2 : ℚ) ^ ((0 : ℤ) - 52) ≤ a / b := by
    rw [le_div_iff₀ hb0]; norm_num; linarith
  have hle : a / b ≤ ((8016407336719483 : ℤ) : ℚ) * (2 : ℚ) ^ ((0 : ℤ) - 52) := by
    rw [div_le_iff₀ hb0]; norm_num; linarith
  have hq : |a / b| < (2 : ℚ) ^ (100 : ℤ) := by
    rw [abs_of_pos (div_pos (by nlinarith [ea.1]) hb0)]
    have : ((8016407336719483 : ℤ) : ℚ) * (2 : ℚ) ^ ((0 : ℤ) - 52) < (2 : ℚ) ^ (100 : ℤ) := by
      norm_num
    linarith
  rw [getVideoAspectRatio_fin a b (16 * k) (9 * k) rest
    (by rw [F64.ofInt, ofRat_eq_fin_of_lt 63 (by norm_num) (by norm_num) hA])
    (by rw [F64.ofInt, ofRat_eq_fin_of_lt 63 (by norm_num) (by norm_num) hB])
    (ne_of_gt hb0) hq]
  rw [if_pos ⟨roundQ_ge 0 7656119366529843 (by norm_num) (by norm_num) (by norm_num) hge,
    roundQ_le 0 8016407336719483 (by norm_num) (by norm_num) (by norm_num) hle⟩]

theorem getVideoAspectRatio_near_threshold :
    getVideoAspectRatio (.data ⟨[⟨1700000000000005, 1000000000000003⟩]⟩)
      = .ok "portrait".toList := by
  have hq : |((1700000000000005 : ℤ) : ℚ) / ((1000000000000003 : ℤ) : ℚ)| < (2 : ℚ) ^ (100 : ℤ) := by
    rw [abs_lt]; constructor <;> norm_num
  have hr : roundQ (((1700000000000005 : ℤ) : ℚ) / ((1000000000000003 : ℤ) : ℚ))
      = (7656119366529843 : ℤ) * (2 : ℚ) ^ ((0 : ℤ) - 52) := by
    apply roundQ_near 0 _ (by norm_num) (by norm_num) (by norm_num)
    rw [abs_lt]; constructor <;> norm_num
  rw [getVideoAspectRatio_fin _ _ 1700000000000005 1000000000000003 []
    (ofInt_eq_fin _ (by norm_num)) (ofInt_eq_fin _ (by norm_num)) (by norm_num) hq, hr]
  rw [if_pos (by constructor <;> norm_num)]

theorem getVideoAspectRatio_zero_height (w : ℤ) (rest : List videoSizes) :
    getVideoAspectRatio (.data ⟨⟨w, 0⟩ :: rest⟩) = .ok "other".toList := by
  have h0 : F64.ofInt 0 = F64.fin 0 := by
    simpa using ofInt_eq_fin 0 (by norm_num)
  have c1 : F64.ofRat (17 / 10) = F64.fin ((7656119366529843 : ℤ) * (2 : ℚ) ^ ((0 : ℤ) - 52)) := by
    rw [ofRat_eq_fin (by rw [abs_lt]; constructor <;> norm_num), roundQ_c170]
  have c2 : F64.ofRat (89 / 50) = F64.fin ((8016407336719483 : ℤ) * (2 : ℚ) ^ ((0 : ℤ) - 52)) := by
    rw [ofRat_eq_fin (by rw [abs_lt]; constructor <;> norm_num), roundQ_c178]
  have c3 : F64.ofRat (1 / 2) = F64.fin ((4503599627370496 : ℤ) * (2 : ℚ) ^ ((-1 : ℤ) - 52)) := by
    rw [ofRat_eq_fin (by rw [abs_lt]; constructor <;> norm_num), roundQ_c050]
  have c4 : F64.ofRat (29 / 50) = F64.fin ((5224175567749775 : ℤ) * (2 : ℚ) ^ ((-1 : ℤ) - 52)) := by
    rw [ofRat_eq_fin (by rw [abs_lt]; constructor <;> norm_num), roundQ_c058]
  simp only [getVideoAspectRatio, h0, c1, c2, c3, c4]
  generalize F64.ofInt w = x
  cases x <;> simp only [F64.div, if_true] <;> split_ifs <;> simp_all [F64.ge, F64.le]

/-! ### Splitting and joining -/

theorem stringsSplit_of_not_mem (s : GoString) (sep : Char) (h : sep ∉ s) :
    stringsSplit s sep = [s] := by
  induction s with
  | nil => simp [stringsSplit]
  | cons c cs ih =>
    have hc : c ≠ sep := fun e => h (by simp [e])
    have hcs : sep ∉ cs := fun e => h (by simp [e])
    simp [stringsSplit, hc, ih hcs]

theorem stringsSplit_append (a b : GoString) (sep : Char) (h : sep ∉ a) :
    stringsSplit (a ++ sep :: b) sep = a :: stringsSplit b sep := by
  induction a with
  | nil => simp [stringsSplit]
  | cons c cs ih =>
    have hc : c ≠ sep := fun e => h (by simp [e])
    have hcs : sep ∉ cs := fun e => h (by simp [e])
    simp [stringsSplit, hc, ih hcs]

theorem stringsJoin_pair (B K : GoString) :
    stringsJoin [B, K] ",".toList = B ++ ',' :: K := by
  simp [stringsJoin, List.intercalate]

theorem stringsSplit_join_pair (B K : GoString) (hB : ',' ∉ B) (hK : ',' ∉ K) :
    stringsSplit (stringsJoin [B, K] ",".toList) ',' = [B, K] := by
  rw [stringsJoin_pair, stringsSplit_append B K ',' hB, stringsSplit_of_not_mem K ',' hK]

/-! ### The sample request -/

theorem getVideoAspectRatio_sample :
    getVideoAspectRatio (.data ⟨[⟨1920, 1080⟩]⟩) = .ok "portrait".toList := by
  have h := getVideoAspectRatio_sixteen_nine 120 [] (by norm_num) (by norm_num)
  norm_num at h
  exact h

theorem sample_encoded :
    encodeToString (randomBytes sampleWorld sampleID.length)
      = "CzBVep_E6Q4zWH2ix-wRNluApcrvFDleg6jN8hc8YYar0PUa".toList := by
  decide


/-! ### The stages of `handlerUploadVideo` -/

theorem handlerUploadVideo_inv (cfg : apiConfig) (w : World) (id : GoString)
    (hne : (handlerUploadVideo cfg w id).events ≠ []) :
    ∃ video mimeType mediaType tempName, Accepted cfg w id video mimeType mediaType tempName
      ∧ handlerUploadVideo cfg w id = wrapTemp tempName
          (handlerUploadVideo.deferred cfg w video mimeType mediaType
            (encodeToString (randomBytes w id.length)) tempName) := by
  rcases h1 : w.uuidParse id with _ | videoID
  · simp [-String.toList, handlerUploadVideo, h1] at hne
  rcases h2 : w.getBearerToken with _ | token
  · simp [-String.toList, handlerUploadVideo, h1, h2] at hne
  rcases h3 : w.validateJWT token cfg.jwtSecret with _ | userID
  · simp [-String.toList, handlerUploadVideo, h1, h2, h3] at hne
  rcases h4 : w.getVideo videoID with _ | video
  · simp [-String.toList, handlerUploadVideo, h1, h2, h3, h4] at hne
  by_cases h5 : video.UserID = userID
  swap
  · simp [-String.toList, handlerUploadVideo, h1, h2, h3, h4, h5] at hne
  rcases h6 : w.formFile with _ | raw
  · simp [-String.toList, handlerUploadVideo, h1, h2, h3, h4, h5, h6] at hne
  rcases h7 : w.parseMediaType raw with _ | mimeType
  · simp [-String.toList, handlerUploadVideo, h1, h2, h3, h4, h5, h6, h7] at hne
  by_cases h8 : stringsContains mimeType "video".toList = true
  swap
  · simp [-String.toList, handlerUploadVideo, h1, h2, h3, h4, h5, h6, h7, h8] at hne
  by_cases h9 : 2 < (stringsSplit mimeType '/').length
  
  · simp [-String.toList, handlerUploadVideo, h1, h2, h3, h4, h5, h6, h7, h8, h9] at hne
  rcases h10 : (stringsSplit mimeType '/')[1]? with _ | mediaType
  · simp [-String.toList, handlerUploadVideo, h1, h2, h3, h4, h5, h6, h7, h8, h9, h10] at hne
  by_cases h11 : w.randOk = true
  swap
  · simp [-String.toList, handlerUploadVideo, h1, h2, h3, h4, h5, h6, h7, h8, h9, h10, h11] at hne
  rcases h12 : w.createTemp with _ | tempName
  · simp [-String.toList, handlerUploadVideo, h1, h2, h3, h4, h5, h6, h7, h8, h9, h10, h11, h12] at hne
  refine ⟨video, mimeType, mediaType, tempName,
    ⟨⟨⟨videoID, token, h1, h2, by rw [h3, h5], h4⟩, ⟨raw, h6, h7⟩⟩, h8, ⟨by omega, by simpa using h10⟩, h11, h12⟩, ?_⟩
  simp [-String.toList, handlerUploadVideo, wrapTemp, h1, h2, h3, h4, h5, h6, h7, h8, h9, h10, h11, h12]

theorem handlerUploadVideo_run (cfg : apiConfig) (w : World) (id : GoString) (video : Video)
    (mimeType mediaType tempName : GoString)
    (h : Accepted cfg w id video mimeType mediaType tempName) :
    handlerUploadVideo cfg w id = wrapTemp tempName
      (handlerUploadVideo.deferred cfg w video mimeType mediaType
        (encodeToString (randomBytes w id.length)) tempName) := by
  obtain ⟨⟨⟨videoID, token, h1, h2, h3, h4⟩, ⟨raw, h6, h7⟩⟩, h8, ⟨h9, h10⟩, h11, h12⟩ := h
  have h9 : ¬ 2 < (stringsSplit mimeType '/').length := by omega
  have h10 : (stringsSplit mimeType '/')[1]? = some mediaType := by simpa using h10
  simp [-String.toList, handlerUploadVideo, wrapTemp, h1, h2, h3, h4, h6, h7, h8, h9, h10, h11, h12]

/-- Before the remuxed file is opened, the deferred part makes no call to the object store
or the record store. -/
theorem deferred_inv (cfg : apiConfig) (w : World) (video : Video)
    (mimeType mediaType enc tempName : GoString)
    (hne : ∃ ev ∈ (handlerUploadVideo.deferred cfg w video mimeType mediaType enc tempName).events,
      ∀ p, ev ≠ Event.createFile p) :
    ∃ c, Remuxed w tempName c
      ∧ handlerUploadVideo.deferred cfg w video mimeType mediaType enc tempName =
        ⟨(handlerUploadVideo.publish cfg w video mimeType
            (c ++ "/".toList ++ enc ++ ".".toList ++ mediaType)).response,
          Event.createFile (tempName ++ ".processing".toList) ::
            (handlerUploadVideo.publish cfg w video mimeType
              (c ++ "/".toList ++ enc ++ ".".toList ++ mediaType)).events⟩ := by
  obtain ⟨ev, hev, hnc⟩ := hne
  by_cases h1 : w.copyOk = true
  swap
  · simp [-String.toList, handlerUploadVideo.deferred, h1] at hev
  by_cases h2 : w.seekOk = true
  swap
  · simp [-String.toList, handlerUploadVideo.deferred, h1, h2] at hev
  rcases h3 : getVideoAspectRatio (w.ffprobe tempName) with c | e | _
  rotate_left
  · simp [-String.toList, handlerUploadVideo.deferred, h1, h2, h3] at hev
  · simp [-String.toList, handlerUploadVideo.deferred, h1, h2, h3] at hev
  rcases h4 : w.ffmpeg tempName (tempName ++ ".processing".toList) with _ | ⟨e, wrote⟩
  swap
  · simp [-String.toList, handlerUploadVideo.deferred, h1, h2, h3, h4, processVideoForFastStart] at hev
    exact absurd hev.2 (hnc _)
  by_cases h5 : w.osOpen (tempName ++ ".processing".toList) = true
  swap
  · simp [-String.toList, handlerUploadVideo.deferred, h1, h2, h3, h4, h5, processVideoForFastStart] at hev
    exact absurd hev (hnc _)
  refine ⟨c, ⟨h1, h2, h3, h4, h5⟩, ?_⟩
  simp [-String.toList, handlerUploadVideo.deferred, h1, h2, h3, h4, h5, processVideoForFastStart]

theorem deferred_run (cfg : apiConfig) (w : World) (video : Video)
    (mimeType mediaType enc tempName c : GoString) (h : Remuxed w tempName c) :
    handlerUploadVideo.deferred cfg w video mimeType mediaType enc tempName =
        ⟨(handlerUploadVideo.publish cfg w video mimeType
            (c ++ "/".toList ++ enc ++ ".".toList ++ mediaType)).response,
          Event.createFile (tempName ++ ".processing".toList) ::
            (handlerUploadVideo.publish cfg w video mimeType
              (c ++ "/".toList ++ enc ++ ".".toList ++ mediaType)).events⟩ := by
  obtain ⟨h1, h2, h3, h4, h5⟩ := h
  simp [-String.toList, handlerUploadVideo.deferred, h1, h2, h3, h4, h5, processVideoForFastStart]


/-! ### The signer and the last part of the upload -/

theorem dbVideoToSignedVideo_none (w : World) (video : Video) (h : video.VideoURL = none) :
    dbVideoToSignedVideo w video = ((video, none), []) := by
  simp [dbVideoToSignedVideo, h]

theorem dbVideoToSignedVideo_malformed (w : World) (video : Video) (ref : GoString)
    (h : video.VideoURL = some ref) (hlen : (stringsSplit ref ',').length ≠ 2) :
    dbVideoToSignedVideo w video
      = ((Video.zero, some ⟨"Could not get bucket and Key from video URL"⟩), []) := by
  simp [dbVideoToSignedVideo, h, hlen]

theorem dbVideoToSignedVideo_pair (w : World) (video : Video) (ref b k : GoString)
    (h : video.VideoURL = some ref) (hsplit : stringsSplit ref ',' = [b, k]) :
    dbVideoToSignedVideo w video =
      match w.presignGetObject b k with
      | .ok url => (({ video with VideoURL := some url }, none), [Event.presign b k])
      | .error e => ((Video.zero, some e), [Event.presign b k]) := by
  simp only [dbVideoToSignedVideo, h, hsplit, generatePresignedURL]
  rcases hp : w.presignGetObject b k with e | url <;> simp [hp]

theorem dbVideoToSignedVideo_events (w : World) (video : Video) :
    ∀ ev ∈ (dbVideoToSignedVideo w video).2, ∃ b k, ev = Event.presign b k := by
  intro ev hev
  rcases h : video.VideoURL with _ | ref
  · simp [dbVideoToSignedVideo_none w video h] at hev
  · by_cases hlen : (stringsSplit ref ',').length = 2
    · obtain ⟨b, k, hbk⟩ : ∃ b k, stringsSplit ref ',' = [b, k] := by
        match hs : stringsSplit ref ',', hlen with
        | [b, k], _ => exact ⟨b, k, rfl⟩
      rw [dbVideoToSignedVideo_pair w video ref b k h hbk] at hev
      rcases hp : w.presignGetObject b k with e | url <;> rw [hp] at hev <;> simp at hev <;>
        exact ⟨b, k, hev⟩
    · simp [dbVideoToSignedVideo_malformed w video ref h hlen] at hev

/-- The calls of the last part: the put, then the record update if the put succeeded, then
the presign calls if the update succeeded. -/
theorem publish_events (cfg : apiConfig) (w : World) (video : Video) (mimeType key : GoString) :
    (handlerUploadVideo.publish cfg w video mimeType key).events =
      Event.putObject cfg.s3Bucket key mimeType ::
        (if w.putObject cfg.s3Bucket key mimeType = true then
          Event.updateVideo { video with VideoURL := some (stringsJoin [cfg.s3Bucket, key] ",".toList) }
            :: (if w.updateVideo
                  { video with VideoURL := some (stringsJoin [cfg.s3Bucket, key] ",".toList) } = true
                then (dbVideoToSignedVideo w
                  { video with VideoURL := some (stringsJoin [cfg.s3Bucket, key] ",".toList) }).2
                else [])
        else []) := by
  unfold handlerUploadVideo.publish
  by_cases h1 : w.putObject cfg.s3Bucket key mimeType = true
  swap
  · simp [-String.toList, h1]
  by_cases h2 : w.updateVideo
      { video with VideoURL := some (stringsJoin [cfg.s3Bucket, key] ",".toList) } = true
  swap
  · simp [-String.toList, h1, h2]
  simp only [h1, h2, not_true_eq_false, if_false, if_true]
  split <;> rename_i heq <;> simp [-String.toList, heq]

theorem publish_response (cfg : apiConfig) (w : World) (video : Video) (mimeType key : GoString) :
    (handlerUploadVideo.publish cfg w video mimeType key).response ≠ .error 415 := by
  unfold handlerUploadVideo.publish
  by_cases h1 : w.putObject cfg.s3Bucket key mimeType = true
  swap
  · simp [-String.toList, h1]
  by_cases h2 : w.updateVideo
      { video with VideoURL := some (stringsJoin [cfg.s3Bucket, key] ",".toList) } = true
  swap
  · simp [-String.toList, h1, h2]
  simp only [h1, h2, not_true_eq_false, if_false, if_true]
  split <;> simp

theorem deferred_response (cfg : apiConfig) (w : World) (video : Video)
    (mimeType mediaType enc tempName : GoString) :
    (handlerUploadVideo.deferred cfg w video mimeType mediaType enc tempName).response
      ≠ .error 415 := by
  by_cases h1 : w.copyOk = true
  swap
  · simp [handlerUploadVideo.deferred, h1]
  by_cases h2 : w.seekOk = true
  swap
  · simp [handlerUploadVideo.deferred, h1, h2]
  rcases h3 : getVideoAspectRatio (w.ffprobe tempName) with c | e | _
  rotate_left
  · simp [handlerUploadVideo.deferred, h1, h2, h3]
  · simp [handlerUploadVideo.deferred, h1, h2, h3]
  rcases h4 : w.ffmpeg tempName (tempName ++ ".processing".toList) with _ | ⟨e, wrote⟩
  swap
  · simp [-String.toList, handlerUploadVideo.deferred, h1, h2, h3, h4, processVideoForFastStart]
  by_cases h5 : w.osOpen (tempName ++ ".processing".toList) = true
  swap
  · simp [-String.toList, handlerUploadVideo.deferred, h1, h2, h3, h4, h5, processVideoForFastStart]
  rw [deferred_run cfg w video mimeType mediaType enc tempName c ⟨h1, h2, h3, h4, h5⟩]
  exact publish_response _ _ _ _ _

/-! ### The random identifier -/

theorem encodeChar_safe (v : ℕ) :
    isURLSafeChar (encodeChar v) = true ∧ encodeChar v ≠ '=' ∧ encodeChar v ≠ '/'
      ∧ encodeChar v ≠ ',' := by
  have hlt : v &&& 0x3F < 64 := Nat.lt_succ_of_le Nat.and_le_right
  have hall : ∀ i, i < 64 → (isURLSafeChar (encodeURL.getD i 'A') = true
      ∧ encodeURL.getD i 'A' ≠ '=' ∧ encodeURL.getD i 'A' ≠ '/' ∧ encodeURL.getD i 'A' ≠ ',') := by
    decide
  exact hall _ hlt

theorem encodeToString_chars (b : List ℕ) :
    ∀ ch ∈ encodeToString b, isURLSafeChar ch = true ∧ ch ≠ '=' ∧ ch ≠ '/' ∧ ch ≠ ',' := by
  induction b using encodeToString.induct with
  | case1 a b c rest ih =>
    intro ch hch
    simp only [encodeToString, List.mem_cons] at hch
    rcases hch with h | h | h | h | h
    · rw [h]; exact encodeChar_safe _
    · rw [h]; exact encodeChar_safe _
    · rw [h]; exact encodeChar_safe _
    · rw [h]; exact encodeChar_safe _
    · exact ih ch h
  | case2 a b =>
    intro ch hch
    simp only [encodeToString, List.mem_cons, List.mem_singleton, List.not_mem_nil, or_false] at hch
    rcases hch with h | h | h
    · rw [h]; exact encodeChar_safe _
    · rw [h]; exact encodeChar_safe _
    · rw [h]; exact encodeChar_safe _
  | case3 a =>
    intro ch hch
    simp only [encodeToString, List.mem_cons, List.mem_singleton, List.not_mem_nil, or_false] at hch
    rcases hch with h | h
    · rw [h]; exact encodeChar_safe _
    · rw [h]; exact encodeChar_safe _
  | case4 => simp [encodeToString]

theorem encodeToString_length (b : List ℕ) :
    (encodeToString b).length = (4 * b.length + 2) / 3 := by
  induction b using encodeToString.induct with
  | case1 a b c rest ih =>
    simp only [encodeToString, List.length_cons, ih]
    omega
  | case2 a b => simp [encodeToString]
  | case3 a => simp [encodeToString]
  | case4 => simp [encodeToString]

theorem randomBytes_length (w : World) (n : ℕ) : (randomBytes w n).length = n := by
  simp [randomBytes]

theorem handlerUploadVideo_415 (cfg : apiConfig) (w : World) (id : GoString) (video : Video)
    (mimeType : GoString) (h : Parsed cfg w id video mimeType) :
    (stringsContains mimeType "video".toList = false →
        handlerUploadVideo cfg w id = ⟨.error 415, []⟩)
      ∧ (stringsContains mimeType "video".toList = true →
        (handlerUploadVideo cfg w id).response ≠ .error 415) := by
  obtain ⟨⟨videoID, token, h1, h2, h3, h4⟩, ⟨raw, h6, h7⟩⟩ := h
  constructor
  · intro h8
    simp [-String.toList, handlerUploadVideo, h1, h2, h3, h4, h6, h7, h8]
  · intro h8
    by_cases h9 : 2 < (stringsSplit mimeType '/').length
    · simp [-String.toList, handlerUploadVideo, h1, h2, h3, h4, h6, h7, h8, h9]
    rcases h10 : (stringsSplit mimeType '/')[1]? with _ | mediaType
    · simp [-String.toList, handlerUploadVideo, h1, h2, h3, h4, h6, h7, h8, h9, h10]
    by_cases h11 : w.randOk = true
    swap
    · simp [-String.toList, handlerUploadVideo, h1, h2, h3, h4, h6, h7, h8, h9, h10, h11]
    rcases h12 : w.createTemp with _ | tempName
    · simp [-String.toList, handlerUploadVideo, h1, h2, h3, h4, h6, h7, h8, h9, h10, h11, h12]
    rw [handlerUploadVideo_run cfg w id video mimeType mediaType tempName
      ⟨⟨⟨videoID, token, h1, h2, h3, h4⟩, ⟨raw, h6, h7⟩⟩, h8, ⟨by omega, by simpa using h10⟩,
        h11, h12⟩]
    exact deferred_response _ _ _ _ _ _ _

theorem handlerUploadThumbnail_415 (cfg : apiConfig) (w : World) (id : GoString) (video : Video)
    (mimeType : GoString) (h : Parsed cfg w id video mimeType) :
    (stringsContains mimeType "image".toList = false →
        handlerUploadThumbnail cfg w id = ⟨.error 415, []⟩)
      ∧ (stringsContains mimeType "image".toList = true →
        (handlerUploadThumbnail cfg w id).response ≠ .error 415) := by
  obtain ⟨⟨videoID, token, h1, h2, h3, h4⟩, ⟨raw, h6, h7⟩⟩ := h
  constructor
  · intro h8
    simp [-String.toList, handlerUploadThumbnail, h1, h2, h3, h4, h6, h7, h8]
  · intro h8
    by_cases h9 : 2 < (stringsSplit mimeType '/').length
    · simp [-String.toList, handlerUploadThumbnail, h1, h2, h3, h4, h6, h7, h8, h9]
    rcases h10 : (stringsSplit mimeType '/')[1]? with _ | mediaType
    · simp [-String.toList, handlerUploadThumbnail, h1, h2, h3, h4, h6, h7, h8, h9, h10]
    by_cases h11 : w.randOk = true
    swap
    · simp [-String.toList, handlerUploadThumbnail, h1, h2, h3, h4, h6, h7, h8, h9, h10, h11]
    simp only [handlerUploadThumbnail, h1, h2, h3, h4, h6, h7, h8, h11, ne_eq, not_true_eq_false,
      if_false, gt_iff_lt, h9, List.get?_eq_getElem?, h10]
    split_ifs <;> simp

theorem sample_parsed :
    Parsed sampleConfig sampleWorld sampleID ⟨7, 1, none, none, "title".toList⟩
      "video/mp4".toList :=
  ⟨⟨7, "token".toList, by decide, rfl, rfl, rfl⟩, ⟨"video/mp4".toList, rfl, rfl⟩⟩

theorem sample_accepted :
    Accepted sampleConfig sampleWorld sampleID ⟨7, 1, none, none, "title".toList⟩
      "video/mp4".toList "mp4".toList "/tmp/tubely-upload.mp4123".toList :=
  ⟨sample_parsed, by decide, ⟨by decide, by decide⟩, rfl, rfl⟩

theorem sample_remuxed :
    Remuxed sampleWorld "/tmp/tubely-upload.mp4123".toList "portrait".toList :=
  ⟨rfl, rfl, getVideoAspectRatio_sample, rfl, rfl⟩

theorem sample_run :
    handlerUploadVideo sampleConfig sampleWorld sampleID =
      ⟨.json 200 ⟨7, 1, none,
          some "https://videos/portrait/CzBVep_E6Q4zWH2ix-wRNluApcrvFDleg6jN8hc8YYar0PUa.mp4".toList,
          "title".toList⟩,
        [.createFile "/tmp/tubely-upload.mp4123".toList,
         .createFile "/tmp/tubely-upload.mp4123.processing".toList,
         .putObject "videos".toList
           "portrait/CzBVep_E6Q4zWH2ix-wRNluApcrvFDleg6jN8hc8YYar0PUa.mp4".toList
           "video/mp4".toList,
         .updateVideo ⟨7, 1, none,
           some "videos,portrait/CzBVep_E6Q4zWH2ix-wRNluApcrvFDleg6jN8hc8YYar0PUa.mp4".toList,
           "title".toList⟩,
         .presign "videos".toList
           "portrait/CzBVep_E6Q4zWH2ix-wRNluApcrvFDleg6jN8hc8YYar0PUa.mp4".toList,
         .removeFile "/tmp/tubely-upload.mp4123".toList]⟩ := by
  rw [handlerUploadVideo_run _ _ _ _ _ _ _ sample_accepted,
    deferred_run _ _ _ _ _ _ _ _ sample_remuxed]
  decide

theorem sampleXVideo_run :
    handlerUploadVideo sampleConfig sampleWorldXVideo sampleID =
      ⟨.json 200 ⟨7, 1, none,
          some ("https://videos/portrait/CzBVep_E6Q4zWH2ix-wRNluApcrvFDleg6jN8hc8YYar0PUa"
            ++ ".x-video").toList,
          "title".toList⟩,
        [.createFile "/tmp/tubely-upload.mp4123".toList,
         .createFile "/tmp/tubely-upload.mp4123.processing".toList,
         .putObject "videos".toList
           "portrait/CzBVep_E6Q4zWH2ix-wRNluApcrvFDleg6jN8hc8YYar0PUa.x-video".toList
           "application/x-video".toList,
         .updateVideo ⟨7, 1, none,
           some "videos,portrait/CzBVep_E6Q4zWH2ix-wRNluApcrvFDleg6jN8hc8YYar0PUa.x-video".toList,
           "title".toList⟩,
         .presign "videos".toList
           "portrait/CzBVep_E6Q4zWH2ix-wRNluApcrvFDleg6jN8hc8YYar0PUa.x-video".toList,
         .removeFile "/tmp/tubely-upload.mp4123".toList]⟩ := by
  have hacc : Accepted sampleConfig sampleWorldXVideo sampleID ⟨7, 1, none, none, "title".toList⟩
      "application/x-video".toList "x-video".toList "/tmp/tubely-upload.mp4123".toList :=
    ⟨⟨⟨7, "token".toList, by decide, rfl, rfl, rfl⟩, ⟨"application/x-video".toList, rfl, rfl⟩⟩,
      by decide, ⟨by decide, by decide⟩, rfl, rfl⟩
  have hrem : Remuxed sampleWorldXVideo "/tmp/tubely-upload.mp4123".toList "portrait".toList :=
    ⟨rfl, rfl, getVideoAspectRatio_sample, rfl, rfl⟩
  rw [handlerUploadVideo_run _ _ _ _ _ _ _ hacc, deferred_run _ _ _ _ _ _ _ _ hrem]
  decide

/-! ### The whole run of a video upload -/

/-- A run that calls the object store, the record store or the presigner has passed every
earlier stage, and its events are: the temp file, the remuxed file, the events of the last
part, and the removal of the temp file. -/
theorem handlerUploadVideo_events (cfg : apiConfig) (w : World) (id : GoString) (ev : Event)
    (hev : ev ∈ (handlerUploadVideo cfg w id).events) (hc : ∀ p, ev ≠ Event.createFile p)
    (hr : ∀ p, ev ≠ Event.removeFile p) :
    ∃ video mimeType mediaType tempName c,
      Accepted cfg w id video mimeType mediaType tempName ∧ Remuxed w tempName c
      ∧ (handlerUploadVideo cfg w id).events =
        Event.createFile tempName :: Event.createFile (tempName ++ ".processing".toList) ::
          ((handlerUploadVideo.publish cfg w video mimeType
              (c ++ "/".toList ++ encodeToString (randomBytes w id.length) ++ ".".toList
                ++ mediaType)).events ++ [Event.removeFile tempName]) := by
  obtain ⟨video, mimeType, mediaType, tempName, hacc, heq⟩ :=
    handlerUploadVideo_inv cfg w id (List.ne_nil_of_mem hev)
  rw [heq] at hev ⊢
  simp only [wrapTemp, List.mem_append, List.mem_singleton] at hev
  rcases hev with (h | h) | h
  · exact absurd h (hc _)
  swap
  · exact absurd h (hr _)
  obtain ⟨c, hrem, hd⟩ := deferred_inv cfg w video mimeType mediaType _ tempName ⟨ev, h, hc⟩
  refine ⟨video, mimeType, mediaType, tempName, c, hacc, hrem, ?_⟩
  rw [hd]
  simp [-String.toList, wrapTemp]

/-- What an event of the last part can be. -/
theorem publish_mem (cfg : apiConfig) (w : World) (video : Video) (mimeType key : GoString)
    (ev : Event) (hev : ev ∈ (handlerUploadVideo.publish cfg w video mimeType key).events) :
    ev = Event.putObject cfg.s3Bucket key mimeType
      ∨ (w.putObject cfg.s3Bucket key mimeType = true
        ∧ (ev = Event.updateVideo
              { video with VideoURL := some (stringsJoin [cfg.s3Bucket, key] ",".toList) }
          ∨ ∃ b k, ev = Event.presign b k)) := by
  rw [publish_events] at hev
  rcases List.mem_cons.mp hev with h | h
  · exact Or.inl h
  · right
    by_cases h1 : w.putObject cfg.s3Bucket key mimeType = true
    swap
    · rw [if_neg h1] at h; exact absurd h (List.not_mem_nil _)
    rw [if_pos h1] at h
    refine ⟨h1, ?_⟩
    rcases List.mem_cons.mp h with h | h
    · exact Or.inl h
    · right
      by_cases h2 : w.updateVideo
          { video with VideoURL := some (stringsJoin [cfg.s3Bucket, key] ",".toList) } = true
      swap
      · rw [if_neg h2] at h; exact absurd h (List.not_mem_nil _)
      rw [if_pos h2] at h
      exact dbVideoToSignedVideo_events w _ ev h

/-! ### The encoder against the specification -/

/-- C1, as amended: for every width `w` of a 64-bit `int` and every height `0 < h ≤ 2^46`
of the first stream, `getVideoAspectRatio` returns without error exactly one of the three
labels, determined only by the exact ratio `r = w / h`, first match winning: `portrait` when
`1.70 ≤ r ≤ 1.78`, otherwise `landscape` when `0.50 ≤ r ≤ 0.58`, otherwise `other`. -/
theorem getVideoAspectRatio_classifies (w h : ℤ) (rest : List videoSizes)
    (hw1 : -2 ^ 63 ≤ w) (hw2 : w < 2 ^ 63) (hh : 0 < h) (hH : h ≤ 2 ^ 46) :
    getVideoAspectRatio (.data ⟨⟨w, h⟩ :: rest⟩) = .ok (specClassify ((w : ℚ) / h))
      ∧ (specClassify ((w : ℚ) / h) = "portrait".toList
        ∨ specClassify ((w : ℚ) / h) = "landscape".toList
        ∨ specClassify ((w : ℚ) / h) = "other".toList) := by
  refine ⟨getVideoAspectRatio_exact w h rest hw1 hw2 hh hH, ?_⟩
  unfold specClassify
  split_ifs
  · exact Or.inl rfl
  · exact Or.inr (Or.inl rfl)
  · exact Or.inr (Or.inr rfl)

/-- C1, witness: the boundary ratios `17/10`, `178/100` give `portrait`, `1/2`, `58/100`
give `landscape`, `179/100`, `49/100` give `other`, and `1080x1920` gives `landscape`. -/
theorem getVideoAspectRatio_classifies_witness :
    getVideoAspectRatio (.data ⟨[⟨17, 10⟩]⟩) = .ok "portrait".toList
      ∧ getVideoAspectRatio (.data ⟨[⟨178, 100⟩]⟩) = .ok "portrait".toList
      ∧ getVideoAspectRatio (.data ⟨[⟨1, 2⟩]⟩) = .ok "landscape".toList
      ∧ getVideoAspectRatio (.data ⟨[⟨58, 100⟩]⟩) = .ok "landscape".toList
      ∧ getVideoAspectRatio (.data ⟨[⟨179, 100⟩]⟩) = .ok "other".toList
      ∧ getVideoAspectRatio (.data ⟨[⟨49, 100⟩]⟩) = .ok "other".toList
      ∧ getVideoAspectRatio (.data ⟨[⟨1080, 1920⟩]⟩) = .ok "landscape".toList := by
  refine ⟨?_, ?_, ?_, ?_, ?_, ?_, ?_⟩
  · rw [(getVideoAspectRatio_classifies 17 10 [] (by norm_num) (by norm_num) (by norm_num)
      (by norm_num)).1]
    norm_num [specClassify]
  · rw [(getVideoAspectRatio_classifies 178 100 [] (by norm_num) (by norm_num) (by norm_num)
      (by norm_num)).1]
    norm_num [specClassify]
  · rw [(getVideoAspectRatio_classifies 1 2 [] (by norm_num) (by norm_num) (by norm_num)
      (by norm_num)).1]
    norm_num [specClassify]
  · rw [(getVideoAspectRatio_classifies 58 100 [] (by norm_num) (by norm_num) (by norm_num)
      (by norm_num)).1]
    norm_num [specClassify]
  · rw [(getVideoAspectRatio_classifies 179 100 [] (by norm_num) (by norm_num) (by norm_num)
      (by norm_num)).1]
    norm_num [specClassify]
  · rw [(getVideoAspectRatio_classifies 49 100 [] (by norm_num) (by norm_num) (by norm_num)
      (by norm_num)).1]
    norm_num [specClassify]
  · rw [(getVideoAspectRatio_classifies 1080 1920 [] (by norm_num) (by norm_num) (by norm_num)
      (by norm_num)).1]
    norm_num [specClassify]

/-- C1, counterexample: for the frame `1700000000000005 x 1000000000000003` the exact ratio
is below `1.70` and outside `[0.50, 0.58]`, so the rule of the claim gives `other`, but the
`float64` quotient rounds to the same value as the constant `1.7` and the code returns
`portrait`. -/
theorem getVideoAspectRatio_classifies_counterexample :
    getVideoAspectRatio (.data ⟨[⟨1700000000000005, 1000000000000003⟩]⟩)
        = .ok "portrait".toList
      ∧ specClassify ((1700000000000005 : ℚ) / 1000000000000003) = "other".toList := by
  refine ⟨getVideoAspectRatio_near_threshold, ?_⟩
  norm_num [specClassify]

/-- C2, as amended: when the probe reports a first stream of width `16k` and height `9k`
with `k ≥ 1` and `16k` within a 64-bit `int` (so in particular `1920x1080`),
`getVideoAspectRatio` returns the label `portrait`, because the ratio `16/9` lies inside
`[1.70, 1.78]`. -/
theorem sixteen_nine_is_portrait (k : ℤ) (rest : List videoSizes) (hk : 1 ≤ k)
    (hk2 : 16 * k < 2 ^ 63) :
    getVideoAspectRatio (.data ⟨⟨16 * k, 9 * k⟩ :: rest⟩) = .ok "portrait".toList
      ∧ ((17 : ℚ) / 10 ≤ 16 / 9 ∧ (16 : ℚ) / 9 ≤ 89 / 50) :=
  ⟨getVideoAspectRatio_sixteen_nine k rest hk hk2, by norm_num, by norm_num⟩

/-- C2, witness: the frame `1920x1080` is `16k x 9k` for `k = 120`. -/
theorem sixteen_nine_is_portrait_witness :
    (1 : ℤ) ≤ 120 ∧ (16 : ℤ) * 120 < 2 ^ 63
      ∧ getVideoAspectRatio (.data ⟨[⟨16 * 120, 9 * 120⟩]⟩) = .ok "portrait".toList :=
  ⟨by norm_num, by norm_num, (sixteen_nine_is_portrait 120 [] (by norm_num) (by norm_num)).1⟩

/-- C2, counterexample: for `1920x1080` the code does not return `other`. -/
theorem sixteen_nine_other_counterexample :
    getVideoAspectRatio (.data ⟨[⟨1920, 1080⟩]⟩) ≠ .ok "other".toList := by
  rw [getVideoAspectRatio_sample]
  decide

/-- C3, the code at the failing inputs: with zero streams `getVideoAspectRatio` panics on
`data.Streams[0]`, and with a first stream of height `0` it returns the label `other` and no
error; only a failing probe gives an error. -/
theorem getVideoAspectRatio_unchecked :
    getVideoAspectRatio (.data ⟨[]⟩) = .panic
      ∧ getVideoAspectRatio (.data ⟨[⟨1920, 0⟩]⟩) = .ok "other".toList
      ∧ getVideoAspectRatio (.cmdError ⟨"exit status 1"⟩) = .error ⟨"exit status 1"⟩ :=
  ⟨rfl, getVideoAspectRatio_zero_height 1920 [], rfl⟩

/-- C4, as amended: for every bucket `B` and key `K` that contain no `,`, the reference the
video upload handler builds (`B` and `K` joined by `,`) is split by `dbVideoToSignedVideo`
back into exactly the pair `(B, K)`, so the one presign request it issues is for bucket `B`
and key `K`. -/
theorem stored_reference_round_trip (B K : GoString) (hB : ',' ∉ B) (hK : ',' ∉ K) :
    stringsSplit (stringsJoin [B, K] ",".toList) ',' = [B, K]
      ∧ ∀ (w : World) (video : Video),
        (dbVideoToSignedVideo w
          { video with VideoURL := some (stringsJoin [B, K] ",".toList) }).2
          = [Event.presign B K] := by
  have hs := stringsSplit_join_pair B K hB hK
  refine ⟨hs, fun w video => ?_⟩
  rw [dbVideoToSignedVideo_pair w _ _ B K rfl hs]
  cases w.presignGetObject B K <;> rfl

/-- C4, witness: bucket `videos` and key `other/ab12CD.mp4` give the reference
`videos,other/ab12CD.mp4`, which parses back to the pair. -/
theorem stored_reference_round_trip_witness :
    stringsJoin ["videos".toList, "other/ab12CD.mp4".toList] ",".toList
        = "videos,other/ab12CD.mp4".toList
      ∧ stringsSplit (stringsJoin ["videos".toList, "other/ab12CD.mp4".toList] ",".toList) ','
        = ["videos".toList, "other/ab12CD.mp4".toList] :=
  ⟨by decide,
    (stored_reference_round_trip "videos".toList "other/ab12CD.mp4".toList
      (by decide) (by decide)).1⟩

/-- C4, counterexample: for the bucket `a,b` and the key `k` the reference `a,b,k` does not
split back into the pair, and `dbVideoToSignedVideo` issues no presign request at all. -/
theorem stored_reference_round_trip_counterexample :
    stringsSplit (stringsJoin ["a,b".toList, "k".toList] ",".toList) ','
        ≠ ["a,b".toList, "k".toList]
      ∧ (dbVideoToSignedVideo sampleWorld
          { sampleStored with
            VideoURL := some (stringsJoin ["a,b".toList, "k".toList] ",".toList) }).2 = [] := by
  constructor <;> decide

/-- C5: `dbVideoToSignedVideo` returns the input video unchanged, with no error and no call,
when the stored reference is nil; it returns the empty video and an error, without calling
the presigner, when the reference does not split on `,` into exactly two parts; and when it
splits into `[b, k]` it calls the presigner once, for `b` and `k`, and fails exactly when
the presigner fails, otherwise returning the video with the signed URL. -/
theorem dbVideoToSignedVideo_contract (w : World) (video : Video) :
    (video.VideoURL = none → dbVideoToSignedVideo w video = ((video, none), []))
      ∧ (∀ ref, video.VideoURL = some ref → (stringsSplit ref ',').length ≠ 2 →
          ∃ e, dbVideoToSignedVideo w video = ((Video.zero, some e), []))
      ∧ (∀ ref b k, video.VideoURL = some ref → stringsSplit ref ',' = [b, k] →
          (dbVideoToSignedVideo w video).2 = [Event.presign b k]
          ∧ (∀ url, w.presignGetObject b k = .ok url →
              (dbVideoToSignedVideo w video).1 = ({ video with VideoURL := some url }, none))
          ∧ (∀ e, w.presignGetObject b k = .error e →
              (dbVideoToSignedVideo w video).1 = (Video.zero, some e))) := by
  refine ⟨dbVideoToSignedVideo_none w video, ?_, ?_⟩
  · intro ref h hlen
    exact ⟨_, dbVideoToSignedVideo_malformed w video ref h hlen⟩
  · intro ref b k h hs
    rw [dbVideoToSignedVideo_pair w video ref b k h hs]
    refine ⟨?_, ?_, ?_⟩
    · cases w.presignGetObject b k <;> rfl
    · intro url hurl; rw [hurl]
    · intro e he; rw [he]

/-- C5, witness: the record with reference `videos,other/ab12CD.mp4` is signed with one
call for bucket `videos` and key `other/ab12CD.mp4`. -/
theorem dbVideoToSignedVideo_contract_witness :
    (dbVideoToSignedVideo sampleWorld sampleStored).2
      = [Event.presign "videos".toList "other/ab12CD.mp4".toList] :=
  ((dbVideoToSignedVideo_contract sampleWorld sampleStored).2.2
    "videos,other/ab12CD.mp4".toList "videos".toList "other/ab12CD.mp4".toList rfl
    (by decide)).1

/-- C6, as amended: for every request that has passed identifier parsing, authentication,
record fetch, ownership check and form-file lookup, with the declared content type
`declared`: `handlerUploadVideo` responds 415 exactly when `mime.ParseMediaType` accepts
`declared` and the media type `m` it returns does not contain the substring `video`, and
then it has created no file, uploaded nothing and updated no record; a declared content
type that `mime.ParseMediaType` rejects is answered 500, again with no effect.
Symmetrically `handlerUploadThumbnail` responds 415 exactly when the returned media type
does not contain the substring `image`. -/
theorem media_category_check (cfg : apiConfig) (w : World) (id : GoString) (video : Video)
    (declared : GoString) (videoID : UUID) (token : GoString)
    (h1 : w.uuidParse id = some videoID) (h2 : w.getBearerToken = some token)
    (h3 : w.validateJWT token cfg.jwtSecret = some video.UserID)
    (h4 : w.getVideo videoID = some video) (h5 : w.formFile = some declared) :
    ((handlerUploadVideo cfg w id).response = .error 415
        ↔ ∃ m, w.parseMediaType declared = some m ∧ ¬ "video".toList <:+: m)
      ∧ ((∃ m, w.parseMediaType declared = some m ∧ ¬ "video".toList <:+: m) →
          (handlerUploadVideo cfg w id).events = [])
      ∧ (w.parseMediaType declared = none → handlerUploadVideo cfg w id = ⟨.error 500, []⟩)
      ∧ ((handlerUploadThumbnail cfg w id).response = .error 415
        ↔ ∃ m, w.parseMediaType declared = some m ∧ ¬ "image".toList <:+: m)
      ∧ ((∃ m, w.parseMediaType declared = some m ∧ ¬ "image".toList <:+: m) →
          (handlerUploadThumbnail cfg w id).events = [])
      ∧ (w.parseMediaType declared = none →
          handlerUploadThumbnail cfg w id = ⟨.error 500, []⟩) := by
  have cv : ∀ m s : GoString, (stringsContains m s = false ↔ ¬ s <:+: m) := by
    intro m s; simp [stringsContains]
  have hvn : w.parseMediaType declared = none → handlerUploadVideo cfg w id = ⟨.error 500, []⟩ := by
    intro hp
    simp [-String.toList, handlerUploadVideo, h1, h2, h3, h4, h5, hp]
  have htn : w.parseMediaType declared = none →
      handlerUploadThumbnail cfg w id = ⟨.error 500, []⟩ := by
    intro hp
    simp [-String.toList, handlerUploadThumbnail, h1, h2, h3, h4, h5, hp]
  have hpar : ∀ m, w.parseMediaType declared = some m → Parsed cfg w id video m :=
    fun m hp => ⟨⟨videoID, token, h1, h2, h3, h4⟩, ⟨declared, h5, hp⟩⟩
  refine ⟨⟨fun hr => ?_, fun hn => ?_⟩, fun hn => ?_, hvn, ⟨fun hr => ?_, fun hn => ?_⟩,
    fun hn => ?_, htn⟩
  · rcases hp : w.parseMediaType declared with _ | m
    · rw [hvn hp] at hr; cases hr
    · refine ⟨m, rfl, ?_⟩
      rcases hb : stringsContains m "video".toList with _ | _
      · exact (cv _ _).mp hb
      · exact absurd hr ((handlerUploadVideo_415 cfg w id video m (hpar m hp)).2 hb)
  · obtain ⟨m, hp, hm⟩ := hn
    rw [(handlerUploadVideo_415 cfg w id video m (hpar m hp)).1 ((cv _ _).mpr hm)]
  · obtain ⟨m, hp, hm⟩ := hn
    rw [(handlerUploadVideo_415 cfg w id video m (hpar m hp)).1 ((cv _ _).mpr hm)]
  · rcases hp : w.parseMediaType declared with _ | m
    · rw [htn hp] at hr; cases hr
    · refine ⟨m, rfl, ?_⟩
      rcases hb : stringsContains m "image".toList with _ | _
      · exact (cv _ _).mp hb
      · exact absurd hr ((handlerUploadThumbnail_415 cfg w id video m (hpar m hp)).2 hb)
  · obtain ⟨m, hp, hm⟩ := hn
    rw [(handlerUploadThumbnail_415 cfg w id video m (hpar m hp)).1 ((cv _ _).mpr hm)]
  · obtain ⟨m, hp, hm⟩ := hn
    rw [(handlerUploadThumbnail_415 cfg w id video m (hpar m hp)).1 ((cv _ _).mpr hm)]

/-- C6, witness: an upload declared as `video/mp4` is answered 415 by the thumbnail
handler, with no effect, and is not answered 415 by the video handler. -/
theorem media_category_check_witness :
    (handlerUploadThumbnail sampleConfig sampleWorld sampleID).response = .error 415
      ∧ (handlerUploadThumbnail sampleConfig sampleWorld sampleID).events = []
      ∧ (handlerUploadVideo sampleConfig sampleWorld sampleID).response ≠ .error 415 :=
  ⟨(media_category_check sampleConfig sampleWorld sampleID ⟨7, 1, none, none, "title".toList⟩
      "video/mp4".toList 7 "token".toList (by decide) rfl rfl rfl rfl).2.2.2.1.mpr
      ⟨"video/mp4".toList, rfl, by decide⟩,
    (media_category_check sampleConfig sampleWorld sampleID ⟨7, 1, none, none, "title".toList⟩
      "video/mp4".toList 7 "token".toList (by decide) rfl rfl rfl rfl).2.2.2.2.1
      ⟨"video/mp4".toList, rfl, by decide⟩,
    fun h => by
      obtain ⟨m, hm, hn⟩ := (media_category_check sampleConfig sampleWorld sampleID
        ⟨7, 1, none, none, "title".toList⟩ "video/mp4".toList 7 "token".toList
        (by decide) rfl rfl rfl rfl).1.mp h
      cases hm
      exact hn (by decide)⟩

/-- C6, counterexample: the content type `application/x-video` has the top-level type
`application`, not `video`, yet `handlerUploadVideo` does not respond 415: it creates the
temp file, uploads the object and updates the record. -/
theorem media_category_check_counterexample :
    topLevelType "application/x-video".toList ≠ "video".toList
      ∧ (handlerUploadVideo sampleConfig sampleWorldXVideo sampleID).response ≠ .error 415
      ∧ Event.createFile "/tmp/tubely-upload.mp4123".toList
          ∈ (handlerUploadVideo sampleConfig sampleWorldXVideo sampleID).events
      ∧ Event.putObject "videos".toList
            "portrait/CzBVep_E6Q4zWH2ix-wRNluApcrvFDleg6jN8hc8YYar0PUa.x-video".toList
            "application/x-video".toList
          ∈ (handlerUploadVideo sampleConfig sampleWorldXVideo sampleID).events := by
  rw [sampleXVideo_run]
  refine ⟨by decide, by decide, by decide, by decide⟩

/-- C7, the code at the failing inputs: a content type with no `/` passes the category
check and the length check, and both handlers panic on `fileType[1]`. -/
theorem bare_media_type_panics :
    handlerUploadVideo sampleConfig sampleWorldBareVideo sampleID = ⟨.panic, []⟩
      ∧ handlerUploadThumbnail sampleConfig sampleWorldBareImage sampleID = ⟨.panic, []⟩ := by
  constructor <;> decide

/-- C9: whenever `handlerUploadVideo` invokes the record-store update, every earlier stage
has succeeded (identifier, authentication, fetch, ownership, form, media type checks, random
name, temp file, copy, seek, classification, remux, reopening), the object-store put was
invoked immediately before it and succeeded, the updated record is the fetched one with only
its media reference changed, to `<bucket>,<key>`, and no other update is made. -/
theorem record_updated_only_after_put (cfg : apiConfig) (w : World) (id : GoString) (v : Video)
    (hupd : Event.updateVideo v ∈ (handlerUploadVideo cfg w id).events) :
    ∃ video mimeType mediaType tempName c key post,
      Accepted cfg w id video mimeType mediaType tempName ∧ Remuxed w tempName c
      ∧ w.putObject cfg.s3Bucket key mimeType = true
      ∧ v = { video with VideoURL := some (cfg.s3Bucket ++ ",".toList ++ key) }
      ∧ (handlerUploadVideo cfg w id).events =
        [Event.createFile tempName, Event.createFile (tempName ++ ".processing".toList),
          Event.putObject cfg.s3Bucket key mimeType, Event.updateVideo v] ++ post
      ∧ ∀ u, Event.updateVideo u ∉ post := by
  obtain ⟨video, mimeType, mediaType, tempName, c, hacc, hrem, hevs⟩ :=
    handlerUploadVideo_events cfg w id _ hupd (by simp) (by simp)
  rw [hevs] at hupd
  set key := c ++ "/".toList ++ encodeToString (randomBytes w id.length) ++ ".".toList
    ++ mediaType with hkey
  have hj : stringsJoin [cfg.s3Bucket, key] ",".toList = cfg.s3Bucket ++ ",".toList ++ key := by
    simp [stringsJoin, List.intercalate]
  have hv : w.putObject cfg.s3Bucket key mimeType = true
      ∧ v = { video with VideoURL := some (cfg.s3Bucket ++ ",".toList ++ key) } := by
    simp only [List.mem_cons, List.mem_append, List.mem_singleton] at hupd
    rcases hupd with h | h | h | h | h
    · cases h
    · cases h
    · rcases publish_mem cfg w video mimeType _ _ h with h' | ⟨h1, h' | ⟨b, k, h'⟩⟩
      · cases h'
      · rw [hj] at h'; cases h'; exact ⟨h1, rfl⟩
      · cases h'
    · cases h
    · cases h
  obtain ⟨h1, hv⟩ := hv
  refine ⟨video, mimeType, mediaType, tempName, c, key,
    (if w.updateVideo v = true then (dbVideoToSignedVideo w v).2 else [])
      ++ [Event.removeFile tempName],
    hacc, hrem, h1, hv, ?_, ?_⟩
  · rw [hevs, publish_events, if_pos h1, hj, ← hv]
    simp only [List.cons_append, List.nil_append]
  · intro u hu
    simp only [List.mem_append, List.mem_singleton] at hu
    rcases hu with hu | hu
    · split_ifs at hu
      · obtain ⟨b, k, hbk⟩ := dbVideoToSignedVideo_events w v _ hu
        cases hbk
      · exact absurd hu (List.not_mem_nil _)
    · cases hu

/-- C9, witness: in the sample upload the record update follows the put and sets the
reference `videos,portrait/...mp4` on the fetched record. -/
theorem record_updated_only_after_put_witness :
    ∃ video mimeType mediaType tempName c key post,
      Accepted sampleConfig sampleWorld sampleID video mimeType mediaType tempName
      ∧ Remuxed sampleWorld tempName c
      ∧ sampleWorld.putObject sampleConfig.s3Bucket key mimeType = true
      ∧ (⟨7, 1, none,
          some "videos,portrait/CzBVep_E6Q4zWH2ix-wRNluApcrvFDleg6jN8hc8YYar0PUa.mp4".toList,
          "title".toList⟩ : Video)
        = { video with VideoURL := some (sampleConfig.s3Bucket ++ ",".toList ++ key) }
      ∧ (handlerUploadVideo sampleConfig sampleWorld sampleID).events =
        [Event.createFile tempName, Event.createFile (tempName ++ ".processing".toList),
          Event.putObject sampleConfig.s3Bucket key mimeType,
          Event.updateVideo ⟨7, 1, none,
            some "videos,portrait/CzBVep_E6Q4zWH2ix-wRNluApcrvFDleg6jN8hc8YYar0PUa.mp4".toList,
            "title".toList⟩] ++ post
      ∧ ∀ u, Event.updateVideo u ∉ post :=
  record_updated_only_after_put sampleConfig sampleWorld sampleID _
    (by rw [sample_run]; decide)

/-- C10, the code at the failing input: after the successful sample upload the temp file
has been removed, but the remuxed file `<temp path>.processing` still exists; the handler
never calls `os.Remove` on it. -/
theorem remuxed_file_left_behind :
    filesAfter (handlerUploadVideo sampleConfig sampleWorld sampleID).events []
        = ["/tmp/tubely-upload.mp4123.processing".toList]
      ∧ Event.removeFile "/tmp/tubely-upload.mp4123.processing".toList
          ∉ (handlerUploadVideo sampleConfig sampleWorld sampleID).events := by
  rw [sample_run]
  constructor <;> decide

end Tubely
